import Mathlib

/-!
# Verification of the cargo-doc2readme core against its specification

This file gives a shallow embedding, in Lean 4, of the core of the
`cargo-doc2readme` program (scope table, link builder, markdown rewriter,
dependency-info codec and staleness verifier) and proves or refutes the
frozen claims about it.

Conventions used throughout:

* Rust machine integers (`u8`, `u64`) are modelled as `Nat` with explicit
  bounds where overflow or serialization width matters.
* Rust `String` is modelled as Lean `String`; `str::starts_with` and friends
  are modelled at the character-list level (`strStartsWith` below), which
  agrees with the byte-level Rust semantics on the inputs at hand.
* `HashMap` values are modelled as association lists (lookup = first match,
  keys kept unique by construction); `BTreeSet`/`BTreeMap` are modelled as
  lists kept strictly sorted by the derived Rust ordering.
* External collaborators (the `blake3` hash function, `pulldown-cmark`'s
  event stream, `syn`'s path parser, the `url` parser and the `tera`
  template engine) are passed in as explicit function parameters: the
  program uses them as black boxes, and the claims quantify over them.
* The `serde_cbor` + `base64` serialization stack used by
  `DependencyInfo::{encode, decode}` is implemented here concretely
  (URL-safe unpadded base64 over CBOR bytes), following the serde data
  model that the repository's derive attributes select.
* Functions whose Rust counterparts can fail or loop are fuelled and return
  `Option`.
-/

/-! ## Character/string helpers (models of `str` methods) -/

/-- Model of Rust `str::starts_with` at the character level. -/
def strStartsWith (s p : String) : Bool :=
  p.data.isPrefixOf s.data

/-- Model of Rust `str::ends_with` at the character level. -/
def strEndsWith (s p : String) : Bool :=
  p.data.reverse.isPrefixOf s.data.reverse

/-- Model of `[T]::join` / `itertools::join`: join pieces with a separator. -/
def strJoinSep (sep : String) : List String → String
  | [] => ""
  | [x] => x
  | x :: xs => x ++ sep ++ strJoinSep sep xs

/-- Model of `str::replace` for a single-character pattern. -/
def strReplaceChar (s : String) (from_ to_ : Char) : String :=
  ⟨s.data.map (fun c => if c = from_ then to_ else c)⟩

/-- First index at which `pat` occurs in `hay` (model of `memmem::find`). -/
def listFindSub [DecidableEq α] : List α → List α → Option Nat
  | _, [] => some 0
  | [], _ :: _ => none
  | x :: xs, pat =>
    if pat.isPrefixOf (x :: xs) then some 0
    else (listFindSub xs pat).map (· + 1)

/-- First index at which the string `pat` occurs in `hay`. -/
def strFindSub (hay pat : String) : Option Nat :=
  listFindSub hay.data pat.data

/-- Whether `pat` occurs somewhere in `hay`. -/
def strContainsSub (hay pat : String) : Bool :=
  (strFindSub hay pat).isSome

/-- Character comparison by code point (agrees with Rust's byte order on
the ASCII data at hand, and is kernel-computable). -/
def charCmp (a b : Char) : Ordering := compare a.toNat b.toNat

/-- Lexicographic list comparison. -/
def listCmp (cmp : α → α → Ordering) : List α → List α → Ordering
  | [], [] => .eq
  | [], _ :: _ => .lt
  | _ :: _, [] => .gt
  | a :: as_, b :: bs =>
    match cmp a b with
    | .eq => listCmp cmp as_ bs
    | o => o

/-- Model of Rust `String` ordering (bytewise; character-level here). -/
def strCmp (a b : String) : Ordering := listCmp charCmp a.data b.data

/-- Split on a separator pattern, keeping empty pieces (model of
`str::split` / `String.splitOn`); the fuel is the list length. -/
def splitOnAuxL [DecidableEq α] (sep : List α) : Nat → List α → List (List α)
  | _, [] => [[]]
  | 0, l => [l]
  | fuel + 1, x :: xs =>
    if sep ≠ [] ∧ sep.isPrefixOf (x :: xs) then
      [] :: splitOnAuxL sep fuel ((x :: xs).drop sep.length)
    else
      match splitOnAuxL sep fuel xs with
      | [] => [[x]]
      | p :: ps => (x :: p) :: ps

/-- Model of `str::split` on strings. -/
def strSplitSub (s sep : String) : List String :=
  (splitOnAuxL sep.data s.data.length s.data).map (fun l => ⟨l⟩)

/-- ASCII text of `u64`-ranged length (every string this program
serializes). -/
def asciiTextWF (s : String) : Prop :=
  (∀ c ∈ s.data, c.toNat < 128) ∧ s.data.length < 2 ^ 64

instance : DecidablePred asciiTextWF := fun s =>
  inferInstanceAs (Decidable ((∀ c ∈ s.data, c.toNat < 128) ∧ s.data.length < 2 ^ 64))

/-- Little-endian digit-list value. -/
def digitsValLE (l : List Nat) : Nat :=
  l.foldr (fun d acc => acc * 10 + d) 0

/-! ## Semver versions

Model of `semver::Version` (an external collaborator of the repository):
major/minor/patch numbers plus pre-release identifiers.  Build metadata is
not modelled (none of the claims concerns it).  The ordering implements
semver precedence, which is what Rust's `<` on `semver::Version` uses. -/

/-- One pre-release identifier: numeric, or alphanumeric. -/
inductive PreId
  | num (n : Nat)
  | str (s : String)
deriving DecidableEq, Repr

/-- Model of `semver::Version` (without build metadata). -/
structure SemVer where
  major : Nat
  minor : Nat
  patch : Nat
  pre : List PreId
deriving DecidableEq, Repr

/-- Ordering of two pre-release identifiers per the semver specification:
numeric identifiers order by value and sort below alphanumeric ones, which
order lexicographically. -/
def PreId.cmp : PreId → PreId → Ordering
  | .num a, .num b => compare a b
  | .num _, .str _ => .lt
  | .str _, .num _ => .gt
  | .str a, .str b => strCmp a b

/-- Ordering of pre-release identifier lists: element-wise, a strict prefix
sorts first. -/
def preListCmp : List PreId → List PreId → Ordering
  | [], [] => .eq
  | [], _ :: _ => .lt
  | _ :: _, [] => .gt
  | a :: as_, b :: bs =>
    match PreId.cmp a b with
    | .eq => preListCmp as_ bs
    | o => o

/-- Semver precedence: compare the numeric triple, then the pre-release part
(a version with a pre-release sorts below the same triple without one). -/
def SemVer.cmp (a b : SemVer) : Ordering :=
  match compare a.major b.major with
  | .eq =>
    match compare a.minor b.minor with
    | .eq =>
      match compare a.patch b.patch with
      | .eq =>
        match a.pre, b.pre with
        | [], [] => .eq
        | [], _ :: _ => .gt
        | _ :: _, [] => .lt
        | _, _ => preListCmp a.pre b.pre
      | o => o
    | o => o
  | o => o

/-- Model of `<` on `semver::Version`. -/
def SemVer.lt (a b : SemVer) : Bool :=
  SemVer.cmp a b = .lt

/-- Shorthand for a plain `major.minor.patch` version. -/
def semver (major minor patch : Nat) : SemVer :=
  ⟨major, minor, patch, []⟩

/-! ## Version requirements

`input.rs` stores a `semver::VersionReq` in every manifest dependency.
Modelled from the spec: the version-requirement matching semantics are
supplied by the external `semver` collaborator; the spec only speaks of "a
version compatible with the current version requirement".  We model the
default (caret) requirement of Cargo: a base version, matching every
version at least the base and strictly below the next incompatible
version. -/

structure VersionReq where
  base : SemVer
deriving DecidableEq, Repr

/-- The smallest version excluded from above by a caret requirement. -/
def VersionReq.upper (r : VersionReq) : SemVer :=
  if r.base.major > 0 then ⟨r.base.major + 1, 0, 0, []⟩
  else if r.base.minor > 0 then ⟨0, r.base.minor + 1, 0, []⟩
  else ⟨0, 0, r.base.patch + 1, []⟩

/-- Modelled from the spec: semver requirement matching (caret semantics) as
supplied by the external `semver` collaborator. -/
def VersionReq.matches (r : VersionReq) (v : SemVer) : Bool :=
  !SemVer.lt v r.base && SemVer.lt v r.upper

/-! ## `src/depinfo.rs`: the dependency-info record -/

namespace Depinfo

/-- Model of `depinfo.rs`'s
`struct Dependency(String, Option<Version>, Option<String>)`:
crates.io name, optional resolved version, and the lib name as seen in Rust
code when it differs from the crates.io name. -/
structure Dependency where
  crateName : String
  version : Option SemVer
  libNameOpt : Option String
deriving DecidableEq, Repr

/-- `Dependency::new`: store the lib name only when it differs from the
crate name. -/
def Dependency.new (crateName : String) (version : Option SemVer)
    (libName : String) : Dependency :=
  ⟨crateName, version, if libName ≠ crateName then some libName else none⟩

/-- `Dependency::lib_name`. -/
def Dependency.libName (d : Dependency) : String :=
  d.libNameOpt.getD d.crateName

/-- Ordering on `Option` values as derived in Rust: `None` sorts below
`Some`, and `Some` values compare by the inner ordering. -/
def optCmp (cmp : α → α → Ordering) : Option α → Option α → Ordering
  | none, none => .eq
  | none, some _ => .lt
  | some _, none => .gt
  | some a, some b => cmp a b

/-- The derived `Ord` of `Dependency` (lexicographic over the three
fields; Rust strings compare bytewise, which agrees with Lean's character
comparison here). -/
def Dependency.cmp (a b : Dependency) : Ordering :=
  match strCmp a.crateName b.crateName with
  | .eq =>
    match optCmp SemVer.cmp a.version b.version with
    | .eq => optCmp strCmp a.libNameOpt b.libNameOpt
    | o => o
  | o => o

/-- `BTreeSet::insert` on a strictly sorted list: keep the list sorted and
do nothing when an equal element is already present. -/
def btreeInsert (cmp : α → α → Ordering) (x : α) : List α → List α
  | [] => [x]
  | y :: ys =>
    match cmp x y with
    | .lt => x :: y :: ys
    | .eq => y :: ys
    | .gt => y :: btreeInsert cmp x ys

/-- A 256-bit `blake3::Hash`, as its list of 32 bytes. -/
abbrev Blake3Hash := List Nat

/-- Model of `struct DependencyInfoV1`. The `dependencies` field models the
`BTreeSet<Dependency>`: a list kept strictly sorted by `Dependency.cmp`. -/
structure DependencyInfoV1 where
  markdownVersion : Nat
  templateHash : Blake3Hash
  rustdocHash : Blake3Hash
  dependencies : List Dependency
deriving DecidableEq, Repr

/-- Model of `enum DependencyInfoImpl`. The single variant carries the
`MustBe!(1u8)` schema tag implicitly (it is re-introduced by the codec). -/
inductive DependencyInfoImpl
  | V1 (info : DependencyInfoV1)
deriving DecidableEq, Repr

/-- Model of `pub struct DependencyInfo(DependencyInfoImpl)`. -/
structure DependencyInfo where
  impl : DependencyInfoImpl
deriving DecidableEq, Repr

/-- Convenient accessor for the single variant. -/
def DependencyInfo.v1 (self : DependencyInfo) : DependencyInfoV1 :=
  match self.impl with
  | .V1 info => info

/-- `DependencyInfo::markdown_version`: the generator's current markdown
version number. -/
def markdownVersionCurrent : Nat := 0

/-- `DependencyInfoImpl::new` / `DependencyInfo::new`, parameterized by the
external `blake3` hash function. -/
def DependencyInfo.new (blake3 : String → Blake3Hash)
    (template rustdoc : String) : DependencyInfo :=
  ⟨.V1 {
    markdownVersion := markdownVersionCurrent
    templateHash := blake3 template
    rustdocHash := blake3 rustdoc
    dependencies := [] }⟩

/-- `DependencyInfoImpl::add_dependency` / `DependencyInfo::add_dependency`:
insert `Dependency::new(crate_name, version, lib_name)` into the set. -/
def DependencyInfo.addDependency (self : DependencyInfo) (crateName : String)
    (version : Option SemVer) (libName : String) : DependencyInfo :=
  match self.impl with
  | .V1 info =>
    ⟨.V1 { info with
      dependencies :=
        btreeInsert Dependency.cmp (Dependency.new crateName version libName)
          info.dependencies }⟩

/-- `DependencyInfo::is_empty`. -/
def DependencyInfo.isEmpty (self : DependencyInfo) : Bool :=
  self.v1.dependencies.isEmpty

/-- Insert into an association list with replace-on-equal-key semantics
(`BTreeMap::insert` as used by `collect`). -/
def mapInsertReplace (k : String) (v : β) : List (String × β) → List (String × β)
  | [] => [(k, v)]
  | (k', v') :: rest =>
    if k = k' then (k, v) :: rest else (k', v') :: mapInsertReplace k v rest

/-- Association-list lookup (first match). -/
def mapLookup (k : String) : List (String × β) → Option β
  | [] => none
  | (k', v) :: rest => if k = k' then some v else mapLookup k rest

/-- `DependencyInfoImpl::dependencies`: collect the stored set, in ascending
order, into a map keyed by crates.io name (later duplicates of a key
replace earlier ones, as with `BTreeMap::from_iter`). -/
def DependencyInfo.dependenciesMap (self : DependencyInfo) :
    List (String × (Option SemVer × String)) :=
  self.v1.dependencies.foldl
    (fun m d => mapInsertReplace d.crateName (d.version, d.libName) m) []

/-- `DependencyInfo::check_input`, parameterized by `blake3`:
both stored hashes must equal the hashes of the current inputs. -/
def DependencyInfo.checkInput (blake3 : String → Blake3Hash)
    (self : DependencyInfo) (template rustdoc : String) : Bool :=
  (decide (self.v1.templateHash = blake3 template)) &&
  (decide (self.v1.rustdocHash = blake3 rustdoc))

/-- `DependencyInfo::check_outdated`: stored markdown version differs from
the generator's current one. -/
def DependencyInfo.checkOutdated (self : DependencyInfo) : Bool :=
  self.v1.markdownVersion ≠ markdownVersionCurrent

/-- `DependencyInfo::check_dependency`.  Looks the crate up in the
`dependencies()` view; missing crates yield `allow_missing`; a differing
lib name fails; and when a version is requested, the stored version must
exist and be at least the requested one (`Some(dep_ver) if *dep_ver < ver`
fails the check). -/
def DependencyInfo.checkDependency (self : DependencyInfo) (crateName : String)
    (version : Option SemVer) (libName : String) (allowMissing : Bool) : Bool :=
  match mapLookup crateName self.dependenciesMap with
  | none => allowMissing
  | some (depVer, depLibName) =>
    if libName ≠ depLibName then false
    else
      match version with
      | some ver =>
        match depVer with
        | none => false
        | some depVer => if SemVer.lt depVer ver then false else true
      | none => true

end Depinfo

/-! ## URL-safe unpadded base64 (the external `base64` crate, as configured
by `URL_SAFE_NO_PAD`) -/

namespace B64

/-- The URL-safe base64 alphabet. -/
def alphabet : List Char :=
  "ABCDEFGHIJKLMNOPQRSTUVWXYZabcdefghijklmnopqrstuvwxyz0123456789-_".data

/-- Character for a 6-bit value. -/
def chr (n : Nat) : Char := alphabet.getD n 'A'

/-- 6-bit value of a character, if it belongs to the alphabet. -/
def val (c : Char) : Option Nat := alphabet.indexOf? c

/-- Encode a byte list, three bytes at a time, without padding. -/
def encodeChars : List Nat → List Char
  | [] => []
  | [a] => [chr (a / 4), chr (a % 4 * 16)]
  | [a, b] => [chr (a / 4), chr (a % 4 * 16 + b / 16), chr (b % 16 * 4)]
  | a :: b :: c :: rest =>
    chr (a / 4) :: chr (a % 4 * 16 + b / 16) :: chr (b % 16 * 4 + c / 64) ::
      chr (c % 64) :: encodeChars rest

/-- `base64::encode_config(_, URL_SAFE_NO_PAD)`. -/
def encode (bytes : List Nat) : String := ⟨encodeChars bytes⟩

/-- Decode a character list, four characters at a time; reject characters
outside the alphabet, group lengths of one, and set trailing bits. -/
def decodeChars : List Char → Option (List Nat)
  | [] => some []
  | [_] => none
  | [c1, c2] => do
    let v1 ← val c1
    let v2 ← val c2
    if v2 % 16 = 0 then some [v1 * 4 + v2 / 16] else none
  | [c1, c2, c3] => do
    let v1 ← val c1
    let v2 ← val c2
    let v3 ← val c3
    if v3 % 4 = 0 then some [v1 * 4 + v2 / 16, v2 % 16 * 16 + v3 / 4]
    else none
  | c1 :: c2 :: c3 :: c4 :: rest => do
    let v1 ← val c1
    let v2 ← val c2
    let v3 ← val c3
    let v4 ← val c4
    let tail ← decodeChars rest
    some ((v1 * 4 + v2 / 16) :: (v2 % 16 * 16 + v3 / 4) :: (v3 % 4 * 64 + v4) :: tail)

/-- `base64::decode_config(_, URL_SAFE_NO_PAD)`. -/
def decode (s : String) : Option (List Nat) := decodeChars s.data

end B64

/-! ## CBOR values and bytes (the external `serde_cbor` crate)

Only the fragment of CBOR that the `DependencyInfo` serialization exercises
is modelled: unsigned integers, UTF-8 text (ASCII in all uses here), null,
definite-length arrays and definite-length maps. -/

namespace Cbor

inductive Value
  | nat (n : Nat)
  | text (s : String)
  | null
  | arr (l : List Value)
  | map (l : List (Value × Value))
deriving Repr

/-- Big-endian bytes of `n`, `k` bytes wide. -/
def natToBeBytes : Nat → Nat → List Nat
  | 0, _ => []
  | k + 1, n => natToBeBytes k (n / 256) ++ [n % 256]

/-- Value of a big-endian byte list. -/
def beBytesToNat (l : List Nat) : Nat :=
  l.foldl (fun acc b => acc * 256 + b) 0

/-- CBOR head for the given major type and argument, using the minimal-width
argument encoding (as `serde_cbor` writes). -/
def head (major n : Nat) : List Nat :=
  if n < 24 then [major * 32 + n]
  else if n < 2 ^ 8 then [major * 32 + 24, n]
  else if n < 2 ^ 16 then (major * 32 + 25) :: natToBeBytes 2 n
  else if n < 2 ^ 32 then (major * 32 + 26) :: natToBeBytes 4 n
  else (major * 32 + 27) :: natToBeBytes 8 n

mutual

/-- CBOR byte serialization of a value.  Text is serialized as its
characters' code points, which coincides with UTF-8 for the ASCII strings
this codec carries. -/
def encodeValue : Value → List Nat
  | .nat n => head 0 n
  | .text s => head 3 s.data.length ++ s.data.map Char.toNat
  | .null => [246]
  | .arr l => head 4 l.length ++ encodeList l
  | .map l => head 5 l.length ++ encodePairs l

def encodeList : List Value → List Nat
  | [] => []
  | v :: vs => encodeValue v ++ encodeList vs

def encodePairs : List (Value × Value) → List Nat
  | [] => []
  | (k, v) :: kvs => encodeValue k ++ encodeValue v ++ encodePairs kvs

end

/-- Read `k` bytes off the front of a byte list. -/
def readBytes : Nat → List Nat → Option (List Nat × List Nat)
  | 0, bs => some ([], bs)
  | _ + 1, [] => none
  | k + 1, b :: bs => (readBytes k bs).map (fun (xs, rest) => (b :: xs, rest))

/-- Parse a CBOR head: major type and argument. -/
def readHead : List Nat → Option (Nat × Nat × List Nat)
  | [] => none
  | b :: bs =>
    let major := b / 32
    let info := b % 32
    if info < 24 then some (major, info, bs)
    else if info = 24 then
      match bs with
      | [] => none
      | a :: rest => some (major, a, rest)
    else if info = 25 then
      (readBytes 2 bs).map (fun (xs, rest) => (major, beBytesToNat xs, rest))
    else if info = 26 then
      (readBytes 4 bs).map (fun (xs, rest) => (major, beBytesToNat xs, rest))
    else if info = 27 then
      (readBytes 8 bs).map (fun (xs, rest) => (major, beBytesToNat xs, rest))
    else none

/-- Turn text payload bytes back into a string; all uses are ASCII. -/
def bytesToText (bs : List Nat) : Option String :=
  if bs.all (· < 128) then some ⟨bs.map Char.ofNat⟩ else none

mutual

/-- Fuelled CBOR parser for the value fragment above. -/
def decodeValue : Nat → List Nat → Option (Value × List Nat)
  | 0, _ => none
  | fuel + 1, bytes =>
    match bytes with
    | [] => none
    | b :: bs =>
      if b = 246 then some (.null, bs)
      else
      match readHead (b :: bs) with
      | none => none
      | some (major, n, rest) =>
        if major = 0 then some (.nat n, rest)
        else if major = 3 then
          match readBytes n rest with
          | none => none
          | some (payload, rest) =>
            match bytesToText payload with
            | none => none
            | some s => some (.text s, rest)
        else if major = 4 then
          match decodeCount fuel n rest with
          | none => none
          | some (l, rest) => some (.arr l, rest)
        else if major = 5 then
          match decodePairCount fuel n rest with
          | none => none
          | some (l, rest) => some (.map l, rest)
        else none

def decodeCount : Nat → Nat → List Nat → Option (List Value × List Nat)
  | 0, _, _ => none
  | _ + 1, 0, bytes => some ([], bytes)
  | fuel + 1, n + 1, bytes =>
    match decodeValue fuel bytes with
    | none => none
    | some (v, rest) =>
      match decodeCount fuel n rest with
      | none => none
      | some (vs, rest) => some (v :: vs, rest)

def decodePairCount : Nat → Nat → List Nat → Option (List (Value × Value) × List Nat)
  | 0, _, _ => none
  | _ + 1, 0, bytes => some ([], bytes)
  | fuel + 1, n + 1, bytes =>
    match decodeValue fuel bytes with
    | none => none
    | some (k, rest) =>
      match decodeValue fuel rest with
      | none => none
      | some (v, rest) =>
        match decodePairCount fuel n rest with
        | none => none
        | some (kvs, rest) => some ((k, v) :: kvs, rest)

end

/-! A size measure driving the fuel of the decoder: any fuel at least the
size of a value suffices to parse its encoding back. -/
mutual

def sizeV : Value → Nat
  | .nat _ => 1
  | .text _ => 1
  | .null => 1
  | .arr l => sizeL l + 1
  | .map l => sizeP l + 1

def sizeL : List Value → Nat
  | [] => 1
  | v :: vs => sizeV v + sizeL vs

def sizeP : List (Value × Value) → Nat
  | [] => 1
  | kv :: kvs => sizeV kv.1 + sizeV kv.2 + sizeP kvs

end

/-! The values this codec can faithfully transport: `u64`-ranged integers,
ASCII text, and containers of `u64`-ranged length. -/
mutual

def WFV : Value → Prop
  | .nat n => n < 2 ^ 64
  | .text s => asciiTextWF s
  | .null => True
  | .arr l => l.length < 2 ^ 64 ∧ WFL l
  | .map l => l.length < 2 ^ 64 ∧ WFP l

def WFL : List Value → Prop
  | [] => True
  | v :: vs => WFV v ∧ WFL vs

def WFP : List (Value × Value) → Prop
  | [] => True
  | kv :: kvs => WFV kv.1 ∧ WFV kv.2 ∧ WFP kvs

end

end Cbor

/-! ## Decimal printing and parsing of numbers and versions

`semver::Version` (external) serializes as its display string, e.g.
`1.2.3-alpha.1`.  We implement the printer and parser concretely. -/

/-- Little-endian decimal digits (fuelled; the fuel `n + 1` always
suffices). -/
def natDigitsLEAux : Nat → Nat → List Nat
  | 0, n => [n]
  | fuel + 1, n => if n < 10 then [n] else n % 10 :: natDigitsLEAux fuel (n / 10)

/-- Little-endian decimal digits of `n` (always nonempty). -/
def natDigitsLE (n : Nat) : List Nat := natDigitsLEAux n n

/-- The character of a decimal digit. -/
def digitChar (d : Nat) : Char := Char.ofNat (48 + d)

/-- Decimal string of `n`. -/
def natToStr (n : Nat) : String := ⟨(natDigitsLE n).reverse.map digitChar⟩

/-- Parse a nonempty all-digit character list as a number. -/
def parseNatCs (cs : List Char) : Option Nat :=
  if cs ≠ [] ∧ cs.all Char.isDigit then
    some (cs.foldl (fun a c => a * 10 + (c.toNat - 48)) 0)
  else none

/-- Split a character list on a separator character. -/
def splitOnCharCs (sep : Char) : List Char → List (List Char)
  | [] => [[]]
  | c :: cs =>
    if c = sep then [] :: splitOnCharCs sep cs
    else
      match splitOnCharCs sep cs with
      | [] => [[c]]
      | p :: ps => (c :: p) :: ps

/-- Display string of a pre-release identifier. -/
def PreId.toStr : PreId → String
  | .num n => natToStr n
  | .str s => s

/-- Display string of a version, as the `semver` crate serializes it. -/
def SemVer.toStr (v : SemVer) : String :=
  natToStr v.major ++ "." ++ natToStr v.minor ++ "." ++ natToStr v.patch ++
    (if v.pre.isEmpty then ""
     else "-" ++ strJoinSep "." (v.pre.map PreId.toStr))

/-- Parse one pre-release identifier: all-digit identifiers are numeric. -/
def parsePreId (cs : List Char) : Option PreId :=
  if cs = [] then none
  else if cs.all Char.isDigit then (parseNatCs cs).map .num
  else some (.str ⟨cs⟩)

/-- Parse a version display string back into a `SemVer`. -/
def parseVersion (s : String) : Option SemVer :=
  let mainCs := s.data.takeWhile (· ≠ '-')
  let restCs := s.data.dropWhile (· ≠ '-')
  match splitOnCharCs '.' mainCs with
  | [a, b, c] => do
    let major ← parseNatCs a
    let minor ← parseNatCs b
    let patch ← parseNatCs c
    match restCs with
    | [] => some ⟨major, minor, patch, []⟩
    | _ :: preCs => do
      let ids ← (splitOnCharCs '.' preCs).mapM parsePreId
      some ⟨major, minor, patch, ids⟩
  | _ => none

/-! ## `DependencyInfo::{encode, decode}`: serde data model and codec

`depinfo.rs` derives `Serialize`/`Deserialize`; the functions below spell
out the serde data model those derives produce, and compose it with the
CBOR and base64 layers:

* `DependencyInfoImpl` is an untagged enum whose single variant is the
  tuple `(MustBe!(1u8), DependencyInfoV1)` — an array `[1, {…}]`;
* `DependencyInfoV1` is a struct with renamed keys `m`, `t`, `r`, `d`;
* the hashes use `HashDef`: a tuple of four big-endian `u64` words;
* `Dependency` is a tuple struct whose third field is skipped when `None`
  and defaulted when missing;
* versions serialize as display strings, `None` as null;
* the dependency `BTreeSet` serializes as an array in ascending order and
  deserializes by inserting every element into a fresh set. -/

namespace Depinfo

/-- `HashDef::serialize`: the four big-endian `u64` words of a 32-byte
hash. -/
def hashToWords (h : Blake3Hash) : List Nat :=
  [Cbor.beBytesToNat (h.take 8),
   Cbor.beBytesToNat ((h.drop 8).take 8),
   Cbor.beBytesToNat ((h.drop 16).take 8),
   Cbor.beBytesToNat ((h.drop 24).take 8)]

/-- `HashDef::deserialize`: reassemble the 32 bytes from four big-endian
`u64` words. -/
def wordsToHash (a b c d : Nat) : Blake3Hash :=
  Cbor.natToBeBytes 8 a ++ Cbor.natToBeBytes 8 b ++
    Cbor.natToBeBytes 8 c ++ Cbor.natToBeBytes 8 d

/-- Serde value of a hash. -/
def hashCbor (h : Blake3Hash) : Cbor.Value :=
  .arr ((hashToWords h).map .nat)

/-- Serde value of an optional version. -/
def verOptCbor : Option SemVer → Cbor.Value
  | none => .null
  | some v => .text v.toStr

/-- Serde value of a `Dependency` (third tuple field skipped when
`None`). -/
def depCbor (d : Dependency) : Cbor.Value :=
  .arr ([.text d.crateName, verOptCbor d.version] ++
    (match d.libNameOpt with
     | none => []
     | some l => [.text l]))

/-- Serde value of a `DependencyInfo` (untagged `V1` variant: the array
`[1, {m, t, r, d}]`). -/
def toCborValue (self : DependencyInfo) : Cbor.Value :=
  match self.impl with
  | .V1 info =>
    .arr [.nat 1, .map [
      (.text "m", .nat info.markdownVersion),
      (.text "t", hashCbor info.templateHash),
      (.text "r", hashCbor info.rustdocHash),
      (.text "d", .arr (info.dependencies.map depCbor))]]

/-- Look a string key up in a serde map value. -/
def mapField (fields : List (Cbor.Value × Cbor.Value)) (k : String) :
    Option Cbor.Value :=
  (fields.find? (fun p =>
    match p.1 with
    | .text s => s = k
    | _ => false)).map Prod.snd

/-- Deserialize an integer bounded by `bound` (e.g. `u8`, `u64`). -/
def cborNatLt (bound : Nat) : Cbor.Value → Option Nat
  | .nat n => if n < bound then some n else none
  | _ => none

/-- Deserialize a hash through `HashDef` (a tuple of four `u64`). -/
def cborHash : Cbor.Value → Option Blake3Hash
  | .arr [a, b, c, d] => do
    let a ← cborNatLt (2 ^ 64) a
    let b ← cborNatLt (2 ^ 64) b
    let c ← cborNatLt (2 ^ 64) c
    let d ← cborNatLt (2 ^ 64) d
    some (wordsToHash a b c d)
  | _ => none

/-- Deserialize an optional version. -/
def cborVerOpt : Cbor.Value → Option (Option SemVer)
  | .null => some none
  | .text s => (parseVersion s).map some
  | _ => none

/-- Deserialize a `Dependency` (two- or three-element array). -/
def cborDep : Cbor.Value → Option Dependency
  | .arr [n, v] => do
    let n ← match n with | .text s => some s | _ => none
    let v ← cborVerOpt v
    some ⟨n, v, none⟩
  | .arr [n, v, l] => do
    let n ← match n with | .text s => some s | _ => none
    let v ← cborVerOpt v
    let l ← match l with | .text s => some s | _ => none
    some ⟨n, v, some l⟩
  | _ => none

/-- Deserialize a `DependencyInfo` from its serde value. -/
def fromCborValue : Cbor.Value → Option DependencyInfo
  | .arr [tag, .map fields] => do
    let _ ← match tag with | .nat 1 => some () | _ => none
    let m ← mapField fields "m"
    let m ← cborNatLt (2 ^ 8) m
    let t ← mapField fields "t"
    let t ← cborHash t
    let r ← mapField fields "r"
    let r ← cborHash r
    let d ← mapField fields "d"
    let deps ← match d with | .arr items => items.mapM cborDep | _ => none
    some ⟨.V1 ⟨m, t, r,
      deps.foldl (fun s dep => btreeInsert Dependency.cmp dep s) []⟩⟩
  | _ => none

/-- `DependencyInfo::encode`: CBOR bytes, base64-encoded URL-safe without
padding. -/
def DependencyInfo.encode (self : DependencyInfo) : String :=
  B64.encode (Cbor.encodeValue (toCborValue self))

/-- `DependencyInfo::decode`: base64-decode, parse the CBOR bytes (with
ample fuel), reject trailing bytes, deserialize. -/
def DependencyInfo.decode (s : String) : Option DependencyInfo := do
  let bytes ← B64.decode s
  let (v, rest) ← Cbor.decodeValue (2 * bytes.length + 2) bytes
  if rest = [] then fromCborValue v else none

end Depinfo

/-! ## `src/input.rs`: link types, the scope table and its build phase -/

namespace Input

/-- Model of `enum LinkType`. -/
inductive LinkType
  | attrK | constK | deriveK | enumK | externCrateK | functionK | macroK
  | modK | staticK | structK | traitK | traitAliasK | typeK | unionK
  | useK | pubUseK | primitiveK
deriving DecidableEq, Repr

/-- The scope map `HashMap<String, VecDeque<(LinkType, String)>>`, as an
association list with unique keys; the front of each entry list is the
front of the `VecDeque`. -/
abbrev ScopeScope := List (String × List (LinkType × String))

/-- Model of `struct Scope`. -/
structure Scope where
  scope : ScopeScope
  privmods : List String
deriving DecidableEq, Repr

/-- Lookup of a scope entry (`HashMap` lookup; keys are unique). -/
def scopeLookup (m : ScopeScope) (k : String) : Option (List (LinkType × String)) :=
  (m.find? (fun e => e.1 = k)).map (fun e => e.2)

/-- `Scope::insert`: `entry(key).or_default().push_front((ty, value))`. -/
def scopeEntryPush (k : String) (v : LinkType × String) : ScopeScope → ScopeScope
  | [] => [(k, [v])]
  | (k', l) :: rest =>
    if k = k' then (k', v :: l) :: rest else (k', l) :: scopeEntryPush k v rest

/-- `Scope::insert`. -/
def Scope.insert (s : Scope) (key : String) (ty : LinkType) (value : String) : Scope :=
  { s with scope := scopeEntryPush key (ty, value) s.scope }

/-- Plain `HashMap::insert` (replace the whole entry), used when the
edition-gated prelude additions are merged in. -/
def scopeSet (k : String) (l : List (LinkType × String)) : ScopeScope → ScopeScope
  | [] => [(k, l)]
  | (k', l') :: rest =>
    if k = k' then (k, l) :: rest else (k', l') :: scopeSet k l rest

/-- Model of `cargo_metadata::Edition` (only the comparisons matter). -/
inductive Edition
  | e2015 | e2018 | e2021 | e2024
deriving DecidableEq, Repr

def Edition.idx : Edition → Nat
  | .e2015 => 0
  | .e2018 => 1
  | .e2021 => 2
  | .e2024 => 3

def Edition.ge (a b : Edition) : Bool := b.idx ≤ a.idx

/-- One `make_prelude` row: the canonical path is `::std::{name}` for an
empty path column and `::std::{path}::{name}` otherwise; macros get a
second entry under `{name}!`. -/
def makePreludeRow (row : String × String × LinkType) : List (String × List (LinkType × String)) :=
  let (name, path, ty) := row
  let p := if path = "" then "::std::" ++ name else "::std::" ++ path ++ "::" ++ name
  let items := [(ty, p)]
  match ty with
  | .macroK => [(name, items), (name ++ "!", items)]
  | _ => [(name, items)]

/-- `make_prelude`: collect all rows into the scope map. -/
def makePrelude (rows : List (String × String × LinkType)) : ScopeScope :=
  rows.foldl (fun m row => (makePreludeRow row).foldl (fun m e => scopeSet e.1 e.2 m) m) []

/-- The fixed prelude table of `Scope::prelude`. -/
def preludeRows : List (String × String × LinkType) :=
  [("bool", "", LinkType.primitiveK), ("char", "", LinkType.primitiveK), ("f32", "", LinkType.primitiveK),
   ("f64", "", LinkType.primitiveK), ("i128", "", LinkType.primitiveK), ("i16", "", LinkType.primitiveK),
   ("i32", "", LinkType.primitiveK), ("i64", "", LinkType.primitiveK), ("i8", "", LinkType.primitiveK),
   ("isize", "", LinkType.primitiveK), ("str", "", LinkType.primitiveK), ("u128", "", LinkType.primitiveK),
   ("u16", "", LinkType.primitiveK), ("u32", "", LinkType.primitiveK), ("u64", "", LinkType.primitiveK),
   ("u8", "", LinkType.primitiveK), ("usize", "", LinkType.primitiveK),
   ("Copy", "marker", LinkType.traitK), ("Send", "marker", LinkType.traitK),
   ("Sized", "marker", LinkType.traitK), ("Sync", "marker", LinkType.traitK),
   ("Unpin", "marker", LinkType.traitK), ("Drop", "ops", LinkType.traitK),
   ("Fn", "ops", LinkType.traitK), ("FnMut", "ops", LinkType.traitK), ("FnOnce", "ops", LinkType.traitK),
   ("drop", "mem", LinkType.functionK), ("Box", "boxed", LinkType.structK),
   ("ToOwned", "borrow", LinkType.traitK), ("Clone", "clone", LinkType.traitK),
   ("PartialEq", "cmp", LinkType.traitK), ("PartialOrd", "cmp", LinkType.traitK),
   ("Eq", "cmp", LinkType.traitK), ("Ord", "cmp", LinkType.traitK),
   ("AsRef", "convert", LinkType.traitK), ("AsMut", "convert", LinkType.traitK),
   ("Into", "convert", LinkType.traitK), ("From", "convert", LinkType.traitK),
   ("Default", "default", LinkType.traitK), ("Iterator", "iter", LinkType.traitK),
   ("Extend", "iter", LinkType.traitK), ("IntoIterator", "iter", LinkType.traitK),
   ("DoubleEndedIterator", "iter", LinkType.traitK), ("ExactSizeIterator", "iter", LinkType.traitK),
   ("Option", "option", LinkType.enumK), ("Some", "option::Option", LinkType.useK),
   ("None", "option::Option", LinkType.useK), ("Result", "result", LinkType.structK),
   ("Ok", "result::Result", LinkType.useK), ("Err", "result::Result", LinkType.useK),
   ("String", "string", LinkType.structK), ("ToString", "string", LinkType.traitK),
   ("Vec", "vec", LinkType.structK),
   ("assert", "", LinkType.macroK), ("assert_eq", "", LinkType.macroK), ("assert_ne", "", LinkType.macroK),
   ("cfg", "", LinkType.macroK), ("column", "", LinkType.macroK), ("compile_error", "", LinkType.macroK),
   ("concat", "", LinkType.macroK), ("dbg", "", LinkType.macroK), ("debug_assert", "", LinkType.macroK),
   ("debug_assert_eq", "", LinkType.macroK), ("debug_assert_ne", "", LinkType.macroK),
   ("env", "", LinkType.macroK), ("eprint", "", LinkType.macroK), ("eprintln", "", LinkType.macroK),
   ("file", "", LinkType.macroK), ("format", "", LinkType.macroK), ("format_args", "", LinkType.macroK),
   ("include", "", LinkType.macroK), ("include_bytes", "", LinkType.macroK),
   ("include_str", "", LinkType.macroK), ("is_x86_feature_detected", "", LinkType.macroK),
   ("line", "", LinkType.macroK), ("matches", "", LinkType.macroK), ("module_path", "", LinkType.macroK),
   ("option_env", "", LinkType.macroK), ("panic", "", LinkType.macroK), ("print", "", LinkType.macroK),
   ("println", "", LinkType.macroK), ("stringify", "", LinkType.macroK),
   ("thread_local", "", LinkType.macroK), ("todo", "", LinkType.macroK),
   ("unimplemented", "", LinkType.macroK), ("unreachable", "", LinkType.macroK),
   ("vec", "", LinkType.macroK), ("write", "", LinkType.macroK), ("writeln", "", LinkType.macroK)]

/-- `Scope::prelude`: the fixed table, plus edition-gated additions merged
with plain map inserts. -/
def Scope.prelude (edition : Edition) : Scope :=
  let scope : Scope := ⟨makePrelude preludeRows, []⟩
  let scope :=
    if edition.ge .e2021 then
      { scope with
        scope := (makePrelude
          [("TryInto", "convert", .useK), ("TryFrom", "convert", .useK),
           ("FromIterator", "iter", .useK)]).foldl
          (fun m e => scopeSet e.1 e.2 m) scope.scope }
    else scope
  if edition.ge .e2024 then
    { scope with
      scope := (makePrelude
        [("Future", "future", .traitK), ("IntoFuture", "future", .traitK)]).foldl
        (fun m e => scopeSet e.1 e.2 m) scope.scope }
  else scope

/-- `sanitize_crate_name`. -/
def sanitizeCrateName (name : String) : String := strReplaceChar name '-' '_'

/-- Model of `syn::UseTree`. -/
inductive UseTree
  | path (ident : String) (tree : UseTree)
  | name (ident : String)
  | rename (ident rn : String)
  | glob
  | group (items : List UseTree)
deriving Repr

/-- The proc-macro attribute found on a function item, if any. -/
inductive FnAttr
  | plain
  | procMacro
  | procMacroAttribute
  | procMacroDerive (deriveName : String)
deriving DecidableEq, Repr

/-- Model of the top-level `syn::Item` shapes distinguished by
`read_scope_from_file`. -/
inductive Item
  | constI (pub : Bool) (ident : String)
  | enumI (pub : Bool) (ident : String)
  | externCrateI (pub : Bool) (ident : String) (rn : Option String)
  | fnI (pub : Bool) (ident : String) (attr : FnAttr)
  | macroI (exported : Bool) (ident : Option String)
  | modI (pub : Bool) (ident : String)
  | staticI (pub : Bool) (ident : String)
  | structI (pub : Bool) (ident : String)
  | traitI (pub : Bool) (ident : String)
  | traitAliasI (pub : Bool) (ident : String)
  | typeI (pub : Bool) (ident : String)
  | unionI (pub : Bool) (ident : String)
  | useI (pub : Bool) (tree : UseTree)
  | otherI
deriving Repr

/-- `ScopeEditor::insert`: bind `ident` to `::{crate_name}::{ident}`. -/
def editorInsert (s : Scope) (crateName ident : String) (ty : LinkType) : Scope :=
  s.insert ident ty ("::" ++ crateName ++ "::" ++ ident)

/-- `ScopeEditor::insert_fun`: also bind the call-style `ident()`. -/
def editorInsertFun (s : Scope) (crateName ident : String) : Scope :=
  let p := "::" ++ crateName ++ "::" ++ ident
  (s.insert ident .functionK p).insert (ident ++ "()") .functionK p

/-- `ScopeEditor::insert_macro`: also bind the invocation-style `ident!`. -/
def editorInsertMacroEntry (s : Scope) (crateName ident : String) : Scope :=
  let p := "::" ++ crateName ++ "::" ++ ident
  (s.insert ident .macroK p).insert (ident ++ "!") .macroK p

/-- `ScopeEditor::add_privmod`. -/
def editorAddPrivmod (s : Scope) (ident : String) : Scope :=
  if s.privmods.contains ident then s
  else { s with privmods := s.privmods ++ [ident] }

/-- `ScopeEditor::insert_use_item`: a public use additionally binds the
rename to the crate-root absolute path; every use binds the rename to
`{prefix}{ident}`. -/
def insertUseItem (s : Scope) (crateName : String) (isPub : Bool)
    (pfx rn ident : String) : Scope :=
  let s := if isPub then editorInsert s crateName rn .pubUseK else s
  s.insert rn .useK (pfx ++ ident)

mutual

/-- `ScopeEditor::insert_use_tree_impl`: walk the use tree, accumulating a
path prefix; globs only produce a diagnostic; `use dependency;` with an
empty prefix is skipped. -/
def insertUseTree (s : Scope) (crateName : String) (isPub : Bool)
    (pfx : String) : UseTree → Scope
  | .path ident tree => insertUseTree s crateName isPub (pfx ++ ident ++ "::") tree
  | .name ident =>
    if pfx ≠ "" then insertUseItem s crateName isPub pfx ident ident else s
  | .rename ident rn => insertUseItem s crateName isPub pfx rn ident
  | .glob => s
  | .group items => insertUseTrees s crateName isPub pfx items

def insertUseTrees (s : Scope) (crateName : String) (isPub : Bool)
    (pfx : String) : List UseTree → Scope
  | [] => s
  | t :: ts =>
    insertUseTrees (insertUseTree s crateName isPub pfx t) crateName isPub pfx ts

end

/-- `is_prelude_import`: `use std::prelude::…` or `use core::prelude::…`. -/
def isPreludeImport : UseTree → Bool
  | .path ident (.path ident2 _) =>
    (ident = "std" || ident = "core") && ident2 = "prelude"
  | _ => false

/-- One iteration of the item walk in `read_scope_from_file`.  The
attribute scan on functions is summarized by `FnAttr`: the first proc-macro
attribute wins, a plain function gets both entry styles. -/
def processItem (crateName : String) (s : Scope) : Item → Scope
  | .constI pub ident => if pub then editorInsert s crateName ident .constK else s
  | .enumI pub ident => if pub then editorInsert s crateName ident .enumK else s
  | .externCrateI pub ident rn =>
    match rn with
    | some rn =>
      if pub ∧ ident ≠ "self" then s.insert rn .externCrateK ("::" ++ ident) else s
    | none => s
  | .fnI pub ident attr =>
    if pub then
      match attr with
      | .plain => editorInsertFun s crateName ident
      | .procMacro => editorInsertMacroEntry s crateName ident
      | .procMacroAttribute => editorInsert s crateName ident .attrK
      | .procMacroDerive deriveName => editorInsert s crateName deriveName .deriveK
    else s
  | .macroI exported ident =>
    match ident with
    | some ident => if exported then editorInsertMacroEntry s crateName ident else s
    | none => s
  | .modI pub ident =>
    if pub then editorInsert s crateName ident .modK else editorAddPrivmod s ident
  | .staticI pub ident => if pub then editorInsert s crateName ident .staticK else s
  | .structI pub ident => if pub then editorInsert s crateName ident .structK else s
  | .traitI pub ident => if pub then editorInsert s crateName ident .traitK else s
  | .traitAliasI pub ident =>
    if pub then editorInsert s crateName ident .traitAliasK else s
  | .typeI pub ident => if pub then editorInsert s crateName ident .typeK else s
  | .unionI pub ident => if pub then editorInsert s crateName ident .unionK else s
  | .useI pub tree =>
    if ¬ isPreludeImport tree then insertUseTree s crateName pub "" tree else s
  | .otherI => s

/-- The cleanup pass of `read_scope_from_file`: remove use-derived entries
whose target starts inside a recorded private module and is not already
crate-root absolute. -/
def privmodCleanup (crateName : String) (privmods : List String)
    (m : ScopeScope) : ScopeScope :=
  m.map (fun e =>
    (e.1, e.2.filter (fun v =>
      ¬(v.1 = .useK ∧
        (¬ strStartsWith v.2 "::" ∨ strStartsWith v.2 ("::" ++ crateName ++ "::")) ∧
        (let segments := strSplitSub v.2 "::"
         segments.length > 1 ∧ privmods.contains (segments.headD ""))))))

/-- `read_scope_from_file`: prelude, item walk, then privmod cleanup.
`crateName` is the already-sanitized crate name. -/
def readScopeFromFile (crateName : String) (edition : Edition)
    (items : List Item) : Scope :=
  let scope := items.foldl (processItem crateName) (Scope.prelude edition)
  { scope with scope := privmodCleanup crateName scope.privmods scope.scope }

/-- Model of `input.rs`'s `struct Dependency` (a manifest dependency):
crates.io name, version requirement and exact resolved version. -/
structure Dependency where
  crateName : String
  req : VersionReq
  version : SemVer
deriving DecidableEq, Repr

/-- `Dependency::as_tuple`. -/
def Dependency.asTuple (d : Dependency) : String × Option SemVer :=
  (d.crateName, some d.version)

/-- Model of `struct InputFile` (fields the core uses). `dependencies`
models the `HashMap`; its list order stands for the map's iteration
order. -/
structure InputFile where
  crateName : String
  crateVersion : SemVer
  repository : Option String
  license : Option String
  rustVersion : Option SemVer
  rustdoc : String
  dependencies : List (String × Dependency)
  scope : Scope

end Input

/-! ## `src/output.rs`: `Scope::resolve`

The source recursion has no termination guarantee (claim C8), so the model
is fuelled: `none` means the recursion did not finish within the given
fuel.  The source indexes the scope map and substitutes the entry's
front — most recently inserted — candidate, per the spec's shadowing rule;
a key whose candidate list became empty in the cleanup pass is treated as
absent. -/

namespace Input

def Scope.resolveFuel (s : Scope) (crateName : String) :
    Nat → String → Option String
  | 0, _ => none
  | fuel + 1, path =>
    if strStartsWith path "::" then some path
    else
      match strSplitSub path "::" with
      | [] => some path
      | s0 :: rest =>
        let s0 := if s0 = "crate" then crateName else s0
        match scopeLookup s.scope s0 with
        | some ((_, v) :: _) =>
          Scope.resolveFuel s crateName fuel (strJoinSep "::" (v :: rest))
        | some [] => some path
        | none => some path

end Input

/-! ## `src/links.rs`: the link builder -/

namespace Links

/-- Model of `syn::Path` as `build_link` consumes it: a leading-colon flag
and the identifiers of the segments (generic arguments play no role). -/
structure SynPath where
  leadingColon : Bool
  segments : List String
deriving DecidableEq, Repr

/-- Model of `struct Links`: the dependency-info accumulator. -/
structure Links where
  deps : Depinfo.DependencyInfo
deriving DecidableEq, Repr

/-- `Links::new`. -/
def Links.new (blake3 : String → Depinfo.Blake3Hash)
    (template rustdoc : String) : Links :=
  ⟨Depinfo.DependencyInfo.new blake3 template rustdoc⟩

/-- The kind-specific page-name templates of `build_link`'s final match;
`none` stands for the catch-all search arm. -/
def pageTemplate : Option Input.LinkType → Option String
  | some .constK => some "constant"
  | some .enumK => some "enum"
  | some .macroK => some "macro"
  | some .modK => some "mod"
  | some .primitiveK => some "primitive"
  | some .staticK => some "static"
  | some .structK => some "struct"
  | some .traitK => some "trait"
  | some .typeK => some "type"
  | _ => none

/-- `Links::build_link`: returns the updated accumulator and the URL. -/
def Links.buildLink (self : Links) (path : SynPath)
    (linkType : Option Input.LinkType) (input : Input.InputFile) :
    Links × String :=
  let first := path.segments.headD ""
  let segments := (path.segments.drop 1).filter (fun s => s ≠ "crate")
  -- resolve crate:: and self:: links
  let first :=
    if (first = "crate" ∨ first = "self") ∧ ¬ path.leadingColon then
      strReplaceChar input.crateName '-' '_'
    else first
  -- base url based on the first segment
  let (self, baseUrl) :=
    if first ∈ ["alloc", "core", "proc_macro", "std", "test"] then
      (self, "https://doc.rust-lang.org/stable/" ++ first)
    else
      let (crateName, crateVer) :=
        match Depinfo.mapLookup first input.dependencies with
        | some d => d.asTuple
        | none => (first, none)
      let libName := strReplaceChar crateName '-' '_'
      let self : Links :=
        ⟨self.deps.addDependency crateName crateVer libName⟩
      let url :=
        if segments.isEmpty then
          "https://crates.io/crates/" ++ crateName ++
            (match crateVer with
             | some v => "/" ++ v.toStr
             | none => "")
        else
          "https://docs.rs/" ++ crateName ++ "/" ++
            (match crateVer with
             | some v => v.toStr
             | none => "latest") ++ "/" ++ libName
      (self, url)
  -- last segment and best-effort link generation
  match segments.getLast? with
  | none => (self, baseUrl)
  | some last =>
    let segments := segments.dropLast
    let segmentsUri := strJoinSep "/" segments
    let segmentsUri := if segmentsUri ≠ "" then segmentsUri ++ "/" else segmentsUri
    match pageTemplate linkType with
    | some "mod" => (self, baseUrl ++ "/" ++ segmentsUri ++ last ++ "/index.html")
    | some page =>
      (self, baseUrl ++ "/" ++ segmentsUri ++ page ++ "." ++ last ++ ".html")
    | none =>
      (self, baseUrl ++ "/?search=" ++ strJoinSep "::" (segments ++ [last]))

end Links

/-! ## `src/output.rs`: the markdown rewriter and `emit` -/

namespace Output

/-- Replace all (non-overlapping, leftmost) occurrences of `pat` in a list
(model of `str::replace`; the fuel is the list length). -/
def listReplaceSubAux [DecidableEq α] (pat repl : List α) : Nat → List α → List α
  | _, [] => []
  | 0, l => l
  | fuel + 1, x :: xs =>
    if pat ≠ [] ∧ pat.isPrefixOf (x :: xs) then
      repl ++ listReplaceSubAux pat repl fuel ((x :: xs).drop pat.length)
    else
      x :: listReplaceSubAux pat repl fuel xs

/-- Replace all occurrences of `pat`. -/
def listReplaceSub [DecidableEq α] (pat repl : List α) (l : List α) : List α :=
  listReplaceSubAux pat repl l.length l

/-- `str::replace` on strings. -/
def strReplaceSub (s pat repl : String) : String :=
  ⟨listReplaceSub pat.data repl.data s.data⟩

/-- Model of Rust `str::lines`: split on `'\n'`, drop a final empty piece,
strip one trailing `'\r'` per line. -/
def rustLines (s : String) : List String :=
  if s = "" then []
  else
    let parts := strSplitSub s "\n"
    let parts := if parts.getLast? = some "" then parts.dropLast else parts
    parts.map (fun l => if strEndsWith l "\r" then ⟨l.data.dropLast⟩ else l)

/-- The hidden-line test of the `Event::Text` arm: a line that is exactly
`#`, or starts with `#` followed by a whitespace character
(`line.chars().nth(1).unwrap_or('a')`). -/
def hiddenLine (line : String) : Bool :=
  line = "#" ||
    (strStartsWith line "#" && ((line.data.get? 1).getD 'a').isWhitespace)

/-- `DEFAULT_CODEBLOCK_LANG`. -/
def DEFAULT_CODEBLOCK_LANG : String := "rust"

/-- `RUSTDOC_CODEBLOCK_FLAGS`. -/
def RUSTDOC_CODEBLOCK_FLAGS : List String :=
  ["compile_fail", "edition2015", "edition2018", "edition2021", "ignore",
   "no_run", "should_panic"]

/-- The fenced-code-block language cleanup: strip every rustdoc flag and
every comma; an empty result defaults to `rust`. -/
def stripCodeblockFlags (lang : String) : String :=
  let lang := RUSTDOC_CODEBLOCK_FLAGS.foldl (fun l flag => strReplaceSub l flag "") lang
  let lang := strReplaceSub lang "," ""
  if lang = "" then "rust" else lang

/-- `RUST_PRIMITIVES`. -/
def RUST_PRIMITIVES : List String :=
  ["bool", "char", "f32", "f64", "i128", "i16", "i32", "i64", "i8", "isize",
   "str", "u128", "u16", "u32", "u64", "u8", "usize"]

/-- Model of `pulldown_cmark::Alignment`. -/
inductive Alignment
  | noneA | leftA | centerA | rightA
deriving DecidableEq, Repr

/-- Model of `pulldown_cmark::CodeBlockKind`. -/
inductive CodeBlockKind
  | indented
  | fenced (lang : String)
deriving DecidableEq, Repr

/-- Model of `pulldown_cmark::LinkType`. -/
inductive PdLinkType
  | inline | reference | referenceUnknown | collapsed | collapsedUnknown
  | shortcut | shortcutUnknown | autolink | email
deriving DecidableEq, Repr

/-- Model of `pulldown_cmark::Tag`.  For links and images, `href` is the
destination and `name` the title slot the source reads for unknown
references. -/
inductive Tag
  | paragraph
  | heading (lvl : Nat)
  | blockQuote
  | codeBlock (kind : CodeBlockKind)
  | listT (start : Option Nat)
  | item
  | footnoteDefinition
  | table (alignments : List Alignment)
  | tableHead
  | tableRow
  | tableCell
  | emphasis
  | strong
  | strikethrough
  | link (ty : PdLinkType) (href : String) (name : String)
  | image (ty : PdLinkType) (href : String) (name : String)
deriving DecidableEq, Repr

/-- Model of `pulldown_cmark::Event` (the arms `emit` distinguishes).
The event stream itself is produced by the external `pulldown-cmark`
parser (with the broken-link callback installed), so `emit` is modelled as
a function of this list. -/
inductive Event
  | start (t : Tag)
  | stop (t : Tag)
  | text (s : String)
  | code (s : String)
  | html (s : String)
  | footnoteReference
  | softBreak
  | hardBreak
  | rule
  | taskListMarker
deriving DecidableEq, Repr

/-- `BTreeMap<String, String>::insert` on a sorted association list. -/
def btreeMapInsert (k v : String) : List (String × String) → List (String × String)
  | [] => [(k, v)]
  | (k', v') :: rest =>
    match strCmp k k' with
    | .lt => (k, v) :: (k', v') :: rest
    | .eq => (k, v) :: rest
    | .gt => (k', v') :: btreeMapInsert k v rest

/-- The mutable state of the `emit` event loop. -/
structure EmitState where
  alignments : List Alignment
  hasNewline : Bool
  links : List (String × String)
  linkIdx : Nat
  indent : List String
  lists : List (Option Nat)
  readme : String
deriving DecidableEq, Repr

/-- The initial event-loop state. -/
def initState : EmitState :=
  ⟨[], true, [], 0, [], [], ""⟩

/-- `newline(out, indent)`: a line break followed by every indent piece. -/
def nlStr (indent : List String) : String :=
  "\n" ++ String.join indent

/-- Append text to the readme being built. -/
def put (st : EmitState) (s : String) : EmitState :=
  { st with readme := st.readme ++ s }

/-- The `Event::Text` arm: record whether the text ends in a newline, then
write every line that is not a hidden line, separating lines (and closing
a newline-terminated, non-fully-hidden text) with indented line breaks. -/
def emitText (st : EmitState) (text : String) : EmitState :=
  let hasNl := strEndsWith text "\n"
  let st := { st with hasNewline := hasNl }
  let step := fun (acc : EmitState × Bool × Bool) line =>
    let (st, firstLine, empty) := acc
    if hiddenLine line then (st, firstLine, empty)
    else
      let st := if !firstLine then put st (nlStr st.indent) else st
      (put st line, false, false)
  let (st, _, empty) := (rustLines text).foldl step (st, true, true)
  if hasNl && !empty then put st (nlStr st.indent) else st

/-- One step of the `emit` event loop; `Except` carries the panic message
of the `unimplemented!()` and `unwrap()` arms. -/
def emitEvent (st : EmitState) : Event → Except String EmitState
  | .start t =>
    match t with
    | .paragraph => .ok st
    | .heading lvl =>
      .ok (put st (nlStr st.indent ++ ⟨List.replicate (lvl + 1) '#'⟩ ++ " "))
    | .blockQuote =>
      let st := put st (nlStr st.indent)
      let st := { st with indent := st.indent ++ ["> "] }
      .ok (put st "> ")
    | .codeBlock .indented =>
      .ok (put st (nlStr st.indent ++ "```" ++ DEFAULT_CODEBLOCK_LANG ++ nlStr st.indent))
    | .codeBlock (.fenced lang) =>
      let lang := stripCodeblockFlags lang
      .ok (put st (nlStr st.indent ++ "```" ++ lang ++ nlStr st.indent))
    | .listT start => .ok { st with lists := st.lists ++ [start] }
    | .item =>
      match st.lists.getLast? with
      | none => .error "called `Option::unwrap()` on a `None` value"
      | some startv =>
        let st := { st with indent := st.indent ++ ["\t"] }
        .ok (put st (match startv with
          | some n => " " ++ natToStr n ++ ". "
          | none => " - "))
    | .footnoteDefinition => .error "not implemented"
    | .table a => .ok { st with alignments := a }
    | .tableHead => .ok (put st "|")
    | .tableRow => .ok (put st "|")
    | .tableCell => .ok (put st " ")
    | .emphasis => .ok (put st "*")
    | .strong => .ok (put st "**")
    | .strikethrough => .ok (put st "~~")
    | .link .autolink _ _ => .ok (put st "<")
    | .link .email _ _ => .ok (put st "<")
    | .link _ _ _ => .ok (put st "[")
    | .image _ _ _ => .ok (put st "![")
  | .stop t =>
    match t with
    | .paragraph => .ok (put st (nlStr st.indent ++ nlStr st.indent))
    | .heading _ => .ok (put st (nlStr st.indent ++ nlStr st.indent))
    | .blockQuote =>
      let st := { st with indent := st.indent.dropLast }
      .ok (put st (nlStr st.indent))
    | .codeBlock _ =>
      let st := if !st.hasNewline then put st (nlStr st.indent) else st
      .ok (put st ("```" ++ nlStr st.indent ++ nlStr st.indent))
    | .listT _ => .ok (put st (nlStr st.indent))
    | .item =>
      let st := { st with indent := st.indent.dropLast }
      .ok (put st (nlStr st.indent))
    | .footnoteDefinition => .error "not implemented"
    | .table _ => .ok (put st (nlStr st.indent))
    | .tableHead =>
      let st := put st (nlStr st.indent ++ "|")
      let st := st.alignments.foldl (fun st a =>
        put st ((match a with
          | .noneA => " --- "
          | .leftA => ":--- "
          | .centerA => ":---:"
          | .rightA => " ---:") ++ "|")) st
      .ok (put st (nlStr st.indent))
    | .tableRow => .ok (put st (nlStr st.indent))
    | .tableCell => .ok (put st " |")
    | .emphasis => .ok (put st "*")
    | .strong => .ok (put st "**")
    | .strikethrough => .ok (put st "~~")
    | .link ty href name =>
      if strStartsWith href "#" then .ok (put st ("](" ++ href ++ ")"))
      else
        let link := "__link" ++ natToStr st.linkIdx
        let st := { st with linkIdx := st.linkIdx + 1 }
        match ty with
        | .inline | .reference | .collapsed | .shortcut =>
          let st := { st with links := btreeMapInsert link href st.links }
          .ok (put st ("][" ++ link ++ "]"))
        | .referenceUnknown | .collapsedUnknown | .shortcutUnknown =>
          let st := { st with links := btreeMapInsert link name st.links }
          .ok (put st ("][" ++ link ++ "]"))
        | .autolink | .email => .ok (put st ">")
    | .image ty href name =>
      let link := "__link" ++ natToStr st.linkIdx
      let st := { st with linkIdx := st.linkIdx + 1 }
      match ty with
      | .inline | .reference | .collapsed | .shortcut =>
        let st := { st with links := btreeMapInsert link href st.links }
        .ok (put st ("][" ++ link ++ "]"))
      | .referenceUnknown | .collapsedUnknown | .shortcutUnknown =>
        let st := { st with links := btreeMapInsert link name st.links }
        .ok (put st ("][" ++ link ++ "]"))
      | .autolink | .email => .ok (put st ">")
  | .text s => .ok (emitText st s)
  | .code s => .ok (put st ("`" ++ s ++ "`"))
  | .html s => .ok (put st s)
  | .footnoteReference => .error "not implemented"
  | .softBreak => .ok (put st " ")
  | .hardBreak => .ok (put st "<br/>")
  | .rule => .ok (put st "<hr/>")
  | .taskListMarker => .error "not implemented"

/-- The whole event loop. -/
def runEvents : EmitState → List Event → Except String EmitState
  | st, [] => .ok st
  | st, ev :: evs =>
    match emitEvent st ev with
    | .error e => .error e
    | .ok st => runEvents st evs

end Output

namespace Output

/-- Model of `output.rs`'s `struct DependencyHash`. The `dependencies`
field models the `BTreeSet<(String, Option<Version>, Option<String>)>` as
a sorted list. -/
structure DependencyHash where
  hashVersion : Nat
  markdownVersion : Nat
  templateHash : Depinfo.Blake3Hash
  rustdocHash : Depinfo.Blake3Hash
  dependencies : List (String × Option SemVer × Option String)
deriving DecidableEq, Repr

/-- Ordering of the dependency triples (derived tuple order). -/
def depTripleCmp (a b : String × Option SemVer × Option String) : Ordering :=
  match strCmp a.1 b.1 with
  | .eq =>
    match Depinfo.optCmp SemVer.cmp a.2.1 b.2.1 with
    | .eq => Depinfo.optCmp strCmp a.2.2 b.2.2
    | o => o
  | o => o

/-- `DependencyHash::new` (note: `emit` calls this with the rustdoc hash in
the template slot and vice versa; the swap lives at the call site). -/
def DependencyHash.new (templateHash rustdocHash : Depinfo.Blake3Hash) :
    DependencyHash :=
  ⟨0, 0, templateHash, rustdocHash, []⟩

/-- `DependencyHash::is_empty`. -/
def DependencyHash.isEmpty (self : DependencyHash) : Bool :=
  self.dependencies.isEmpty

/-- `DependencyHash::add_dep`. -/
def DependencyHash.addDep (self : DependencyHash) (crateName : String)
    (version : Option SemVer) (libName : String) : DependencyHash :=
  { self with
    dependencies :=
      Depinfo.btreeInsert depTripleCmp
        (if libName = crateName then (crateName, version, none)
         else (crateName, version, some libName))
        self.dependencies }

/-- Serde value of a `DependencyHash` (struct with renamed keys `v`, `m`,
`t`, `r`, `d`; hashes through `HashDef`; plain triples for the set). -/
def depHashCbor (dh : DependencyHash) : Cbor.Value :=
  .map [
    (.text "v", .nat dh.hashVersion),
    (.text "m", .nat dh.markdownVersion),
    (.text "t", Depinfo.hashCbor dh.templateHash),
    (.text "r", Depinfo.hashCbor dh.rustdocHash),
    (.text "d", .arr (dh.dependencies.map (fun t =>
      .arr [.text t.1,
            Depinfo.verOptCbor t.2.1,
            match t.2.2 with
            | none => .null
            | some l => .text l])))]

/-- The `serde_cbor::to_vec` + base64 encoding of the dependency hash, as
written into the trailer by `emit`. -/
def depHashEncode (dh : DependencyHash) : String :=
  B64.encode (Cbor.encodeValue (depHashCbor dh))

/-- The tera context `emit` builds. -/
structure TeraCtx where
  crate : String
  repository : Option String
  repositoryHost : Option String
  license : Option String
  readme : String
  links : String
deriving DecidableEq, Repr

/-- The external collaborators `emit` and `check_up2date` use:
`blake3::hash`, `syn::parse_str::<Path>`, `Url::parse(…)?.host_str()`
(outer `none` = parse error, inner option = host presence),
`Tera::one_off`, and `Scope::resolve` (whose recursion the source does not
bound, hence a function here). -/
structure Collab where
  blake3 : String → Depinfo.Blake3Hash
  synParsePath : String → Option Links.SynPath
  urlHost : String → Option (Option String)
  tera : String → TeraCtx → Except String String
  resolveF : String → String

/-- The errors on which `emit` returns early (`?`/`unimplemented!`). -/
inductive EmitErr
  | panicked (msg : String)
  | urlErr
  | noHost
  | teraErr (msg : String)
deriving DecidableEq, Repr

/-- The `build_link` closure inside `emit`: build a crates.io or docs.rs
URL and record the dependency into the hash accumulator. -/
def emitBuildLink (dh : DependencyHash) (crateName : String)
    (crateVer : Option SemVer) (search : Option String) :
    DependencyHash × String :=
  let libName := strReplaceChar crateName '-' '_'
  let link :=
    match search with
    | some search =>
      "https://docs.rs/" ++ crateName ++ "/" ++
        (match crateVer with
         | some v => v.toStr
         | none => "latest") ++ "/" ++ libName ++ "/?search=" ++ search
    | none =>
      "https://crates.io/crates/" ++ crateName ++
        (match crateVer with
         | some v => "/" ++ v.toStr
         | none => "")
  (dh.addDep crateName crateVer libName, link)

/-- The body of the link-resolution loop of `emit`, for one link key. -/
def resolveLinkStep (c : Collab) (input : Input.InputFile)
    (acc : List (String × String) × DependencyHash) (link : String) :
    List (String × String) × DependencyHash :=
  let (links, dh) := acc
  match Depinfo.mapLookup link links with
  | none => (links, dh)
  | some href =>
    let href :=
      if strStartsWith href "`" ∧ strEndsWith href "`" ∧ 2 ≤ href.data.length then
        ⟨href.data.drop 1 |>.dropLast⟩
      else href
    let href := c.resolveF href
    match c.synParsePath href with
    | none => (links, dh)
    | some path =>
      let first := path.segments.headD ""
      let search := strJoinSep "::" (path.segments.filter (fun s => s ≠ "crate"))
      if first = "std" ∨ first = "alloc" ∨ first = "core" then
        (btreeMapInsert link
          ("https://doc.rust-lang.org/stable/std/?search=" ++ search) links, dh)
      else if first = "crate" then
        let (crateName, crateVer) :=
          match Depinfo.mapLookup input.crateName input.dependencies with
          | some d => (d.crateName, some d.version)
          | none => (input.crateName, none)
        let (dh, url) := emitBuildLink dh crateName crateVer (some search)
        (btreeMapInsert link url links, dh)
      else if 1 < path.segments.length then
        let (crateName, crateVer) :=
          match Depinfo.mapLookup first input.dependencies with
          | some d => (d.crateName, some d.version)
          | none => (first, none)
        let (dh, url) := emitBuildLink dh crateName crateVer (some search)
        (btreeMapInsert link url links, dh)
      else if first ∈ RUST_PRIMITIVES then
        (btreeMapInsert link
          ("https://doc.rust-lang.org/stable/std/primitive." ++ first ++ ".html")
          links, dh)
      else
        let (crateName, crateVer) :=
          match Depinfo.mapLookup first input.dependencies with
          | some d => (d.crateName, some d.version)
          | none => (first, none)
        let (dh, url) := emitBuildLink dh crateName crateVer none
        (btreeMapInsert link url links, dh)

/-- The trailer block: the encoded dependency hash (when nonempty) and
every link, one reference line each. -/
def readmeLinksStr (dh : DependencyHash) (links : List (String × String)) : String :=
  (if !dh.isEmpty then
    " [__cargo_doc2readme_dependencies_hash]: " ++ depHashEncode dh ++ "\n"
  else "") ++
  String.join (links.map (fun e => " [" ++ e.1 ++ "]: " ++ e.2 ++ "\n"))

/-- `emit`: run the event loop, resolve the collected links, build the
trailer and the tera context, and — only if everything succeeded — write
the substituted template as one single write.  The returned list holds the
chunks written to `out_file`; the `Option` the early-return error, if
any. -/
def emit (c : Collab) (input : Input.InputFile) (template : String)
    (events : List Event) : List String × Option EmitErr :=
  match runEvents initState events with
  | .error e => ([], some (.panicked e))
  | .ok st =>
    let dh := DependencyHash.new (c.blake3 input.rustdoc) (c.blake3 template)
    let (links, dh) :=
      (st.links.map Prod.fst).foldl (resolveLinkStep c input) (st.links, dh)
    let readmeLinks := readmeLinksStr dh links
    let host :=
      match input.repository with
      | none => Except.ok none
      | some repo =>
        match c.urlHost repo with
        | none => Except.error EmitErr.urlErr
        | some none => Except.error EmitErr.noHost
        | some (some h) => Except.ok (some h)
    match host with
    | .error e => ([], some e)
    | .ok host =>
      let ctx : TeraCtx :=
        { crate := input.crateName
          repository := input.repository
          repositoryHost := host
          license := input.license
          readme := st.readme
          links := readmeLinks }
      match c.tera template ctx with
      | .error e => ([], some (.teraErr e))
      | .ok str => ([str], none)

end Output

/-! ## `src/verify.rs`: the staleness verifier -/

namespace Verify

/-- Model of `enum Check`. -/
inductive Check
  | upToDate
  | invalidDepInfo
  | inputChanged
  | incompatibleVersion (name : String)
  | outdatedMarkdown
  | outputChanged
deriving DecidableEq, Repr

/-- The marker `check_up2date` scans for. -/
def searchKey : String := " [__cargo_doc2readme_dependencies_info]: "

/-- The trailer key `emit` writes (note the differing suffix). -/
def emitTrailerKey : String := " [__cargo_doc2readme_dependencies_hash]: "

/-- Extraction of the base64 token that follows the marker at `idx`: the
bytes up to the first space or line break (`memchr2`), or all of them. -/
def markerToken (checkBuf : String) (idx : Nat) : String :=
  let sub : List Char := checkBuf.data.drop (idx + searchKey.data.length)
  let endIdx := ((sub.findIdx? (fun ch => ch = ' ' ∨ ch = '\n')).getD sub.length)
  ⟨sub.take endIdx⟩

/-- `check_up2date`.  When the marker occurs in the checked document, the
token after it (up to the first space or line break, `memchr2`) is decoded
and the dependency-info checks run in their fixed order; otherwise the
document is compared byte for byte against a fresh `emit` run.  `events`
is the pulldown-cmark event stream of `input.rustdoc` used by that run.
As in the source, the manifest requirement `dep.req` is what is handed to
`check_dependency`'s version argument; with `check_dependency` taking a
plain version, the requirement enters through its base version. -/
def checkUp2date (c : Output.Collab) (input : Input.InputFile)
    (template : String) (events : List Output.Event) (checkBuf : String) :
    Except Output.EmitErr Check :=
  match strFindSub checkBuf searchKey with
  | some idx =>
    match Depinfo.DependencyInfo.decode (markerToken checkBuf idx) with
    | none => .ok .invalidDepInfo
    | some depinfo =>
      if depinfo.checkOutdated then .ok .outdatedMarkdown
      else if !depinfo.checkInput c.blake3 template input.rustdoc then
        .ok .inputChanged
      else
        match input.dependencies.find? (fun e =>
          !depinfo.checkDependency e.2.crateName (some e.2.req.base) e.1 true) with
        | some e => .ok (.incompatibleVersion e.2.crateName)
        | none => .ok .upToDate
  | none =>
    match Output.emit c input template events with
    | (_, some e) => .error e
    | (writes, none) =>
      .ok (if String.join writes = checkBuf then .upToDate else .outputChanged)

end Verify

/-! ## Decidability and concrete instances used by the witnesses -/

set_option maxRecDepth 40000

instance exceptDecEq {ε α : Type} [DecidableEq ε] [DecidableEq α] :
    DecidableEq (Except ε α) := fun a b =>
  match a, b with
  | .ok x, .ok y => if h : x = y then isTrue (by rw [h]) else isFalse (by simp [h])
  | .error x, .error y => if h : x = y then isTrue (by rw [h]) else isFalse (by simp [h])
  | .ok _, .error _ => isFalse (by simp)
  | .error _, .ok _ => isFalse (by simp)

/-- A concrete stand-in for the external `blake3` collaborator, used to
instantiate witnesses (any function of this type works in the theorems). -/
def blake3Stub (s : String) : Depinfo.Blake3Hash :=
  (List.range 32).map (fun i => (s.length * 7 + i * 13) % 256)

/-- Modelled from the spec: the external templating collaborator is "a
string-substitution function taking a context record and a template
string"; this concrete instance substitutes each recognized key. -/
def teraSubst (template : String) (ctx : Output.TeraCtx) : Except String String :=
  let t := Output.strReplaceSub template "\x7b\x7b crate \x7d\x7d" ctx.crate
  let t := match ctx.repository with
    | some r => Output.strReplaceSub t "\x7b\x7b repository \x7d\x7d" r
    | none => t
  let t := match ctx.repositoryHost with
    | some h => Output.strReplaceSub t "\x7b\x7b repository_host \x7d\x7d" h
    | none => t
  let t := match ctx.license with
    | some l => Output.strReplaceSub t "\x7b\x7b license \x7d\x7d" l
    | none => t
  let t := Output.strReplaceSub t "\x7b\x7b readme \x7d\x7d" ctx.readme
  Except.ok (Output.strReplaceSub t "\x7b\x7b links \x7d\x7d" ctx.links)

/-- A concrete collaborator bundle for witnesses. -/
def collabStub : Output.Collab :=
  { blake3 := blake3Stub, synParsePath := fun _ => none,
    urlHost := fun _ => none, tera := teraSubst, resolveF := id }

/-- A minimal concrete input file. -/
def inputStub : Input.InputFile :=
  { crateName := "foo", crateVersion := semver 0 1 0, repository := none,
    license := none, rustVersion := none, rustdoc := "o]: hello",
    dependencies := [], scope := Input.Scope.prelude .e2018 }

/-! ### Well-formedness of dependency-info records

`DependencyInfo` values produced by `new` and `add_dependency` from real
blake3 hashes, crate names and cargo versions satisfy these conditions;
they are what the serialization round trip needs. -/

/-- All characters are ASCII. -/
def asciiStr (s : String) : Prop := ∀ c ∈ s.data, c.toNat < 128

instance : DecidablePred asciiStr := fun s =>
  inferInstanceAs (Decidable (∀ c ∈ s.data, c.toNat < 128))

/-- A well-formed pre-release identifier: numeric, or a nonempty ASCII
string that is not all digits and contains no dot (the semver grammar
guarantees this). -/
def PreId.WF : PreId → Prop
  | .num _ => True
  | .str s => s.data ≠ [] ∧ ¬ (s.data.all Char.isDigit = true) ∧
      '.' ∉ s.data ∧ asciiStr s

instance : DecidablePred PreId.WF := fun i => by
  unfold PreId.WF
  cases i <;> infer_instance

/-- A well-formed version: every pre-release identifier is well formed and
the display string is ASCII of `u64`-ranged length (true of every version
the `semver` crate can hold). -/
def SemVer.WF (v : SemVer) : Prop := (∀ i ∈ v.pre, i.WF) ∧ asciiTextWF v.toStr

instance : DecidablePred SemVer.WF := fun v =>
  inferInstanceAs (Decidable ((∀ i ∈ v.pre, i.WF) ∧ asciiTextWF v.toStr))

namespace Depinfo

/-- A well-formed 256-bit hash: 32 bytes. -/
def hashWF (h : Blake3Hash) : Prop := h.length = 32 ∧ ∀ b ∈ h, b < 256

instance : DecidablePred hashWF := fun h =>
  inferInstanceAs (Decidable (h.length = 32 ∧ ∀ b ∈ h, b < 256))

/-- A well-formed dependency entry: ASCII names of `u64`-ranged length,
well-formed version. -/
def Dependency.WF (d : Dependency) : Prop :=
  asciiTextWF d.crateName ∧
  (match d.libNameOpt with
   | some l => asciiTextWF l
   | none => True) ∧
  (match d.version with
   | some v => v.WF
   | none => True)

instance : DecidablePred Dependency.WF := fun d => by
  unfold Dependency.WF
  cases d.libNameOpt <;> cases d.version <;> infer_instance

/-- A well-formed `DependencyInfo`: a `u8` markdown version, 32-byte
hashes, and a strictly ascending well-formed dependency set (the
`BTreeSet` invariant of the model). -/
def DependencyInfo.WF (self : DependencyInfo) : Prop :=
  self.v1.markdownVersion < 256 ∧
  hashWF self.v1.templateHash ∧
  hashWF self.v1.rustdocHash ∧
  self.v1.dependencies.length < 2 ^ 64 ∧
  List.Pairwise (fun a b => Dependency.cmp a b = .lt) self.v1.dependencies ∧
  ∀ d ∈ self.v1.dependencies, d.WF

instance : DecidablePred DependencyInfo.WF := fun self => by
  unfold DependencyInfo.WF
  infer_instance

end Depinfo

/-! ### Concrete claim inputs -/

/-- C1 witness data: a decodable record with an outdated markdown version. -/
def infoC1 : Depinfo.DependencyInfo :=
  ⟨.V1 ⟨1, blake3Stub "T", blake3Stub "R", []⟩⟩

/-- C1 witness document: the marker at index 1, followed by the token. -/
def bufC1 : String := "x" ++ Verify.searchKey ++ infoC1.encode ++ "\n"

/-- C2: the manifest requirement `^1.0.0`. -/
def reqC2 : VersionReq := ⟨semver 1 0 0⟩

/-- C2: a stored record resolving dependency `a` at `2.0.0`. -/
def infoC2 : Depinfo.DependencyInfo :=
  (Depinfo.DependencyInfo.new blake3Stub "TMPL" "RDOC").addDependency
    "a" (some (semver 2 0 0)) "a"

/-- C2: the current input file requiring `a = ^1.0.0`. -/
def inputC2 : Input.InputFile :=
  { crateName := "foo", crateVersion := semver 0 1 0, repository := none,
    license := none, rustVersion := none, rustdoc := "RDOC",
    dependencies := [("a", ⟨"a", reqC2, semver 2 0 0⟩)],
    scope := Input.Scope.prelude .e2018 }

/-- C2: an existing readme carrying the encoded stored record. -/
def bufC2 : String := Verify.searchKey ++ infoC2.encode ++ "\n"

/-- C5: the resolved path `std::u8::MAX`. -/
def pathC5 : Links.SynPath := ⟨false, ["std", "u8", "MAX"]⟩

/-- C5: the link-builder accumulator before the call. -/
def linksC5 : Links.Links := Links.Links.new blake3Stub "" ""

/-- C7: the event stream of a fenced code block tagged `ignore` whose body
holds a hidden-by-convention line and a sibling line. -/
def eventsC7 : List Output.Event :=
  [.start (.codeBlock (.fenced "ignore")),
   .text "# You cannot see me\nvisible\n",
   .stop (.codeBlock (.fenced "ignore"))]

/-- C8: the item list of a compilation unit containing `use a as a;`. -/
def itemsC8 : List Input.Item := [.useI false (.rename "a" "a")]

/-- C8: the scope the build phase produces for it. -/
def scopeC8 : Input.Scope := Input.readScopeFromFile "mycrate" .e2018 itemsC8

/-- C9: an input whose repository URL the url collaborator rejects. -/
def inputC9repo : Input.InputFile :=
  { inputStub with repository := some "not a url" }

/-- C10: the adversarial template ending right before the marker's tail. -/
def templateC10 : String :=
  " [__cargo_doc2readme_dependencies_inf\x7b\x7b readme \x7d\x7d"

/-- C10: the event stream pulldown-cmark produces for the one-paragraph
rustdoc text `o]: hello`. -/
def eventsC10 : List Output.Event :=
  [.start .paragraph, .text "o]: hello", .stop .paragraph]

/-- C10: the document `emit` produces from these inputs. -/
def bufC10 : String :=
  String.join (Output.emit collabStub inputStub templateC10 eventsC10).1

/-- C3 witness data: a record with two dependencies, one carrying a
pre-release version and a renamed lib, one without a version. -/
def infoC3 : Depinfo.DependencyInfo :=
  ((Depinfo.DependencyInfo.new blake3Stub "TMPL" "RDOC").addDependency
    "dep-a" (some ⟨1, 2, 3, [.num 4, .str "al"]⟩) "dep_a").addDependency
    "b" none "b"

/-- Divergence of `Scope::resolve` at a concrete scope and path: the fuelled
model runs out at every fuel, which is the model's rendering of the Rust
recursion never returning. -/
def resolveDiverges (s : Input.Scope) (crateName path : String) : Prop :=
  ∀ fuel, s.resolveFuel crateName fuel path = none

/-! ## Theorems -/

/-! ### C3 development: base64 layer -/

namespace B64

lemma val_chr : ∀ p : Nat, p < 64 → val (chr p) = some p := by decide

lemma decodeChars_encodeChars :
    ∀ bs : List Nat, (∀ b ∈ bs, b < 256) →
      decodeChars (encodeChars bs) = some bs
  | [], _ => rfl
  | [a], h => by
      have ha : a < 256 := h a (by simp)
      have h1 : val (chr (a / 4)) = some (a / 4) := val_chr _ (by omega)
      have h2 : val (chr (a % 4 * 16)) = some (a % 4 * 16) := val_chr _ (by omega)
      have e1 : a % 4 * 16 % 16 = 0 := by omega
      have e2 : a / 4 * 4 + a % 4 * 16 / 16 = a := by omega
      simp [encodeChars, decodeChars, h1, h2, e1, e2]
      omega
  | [a, b], h => by
      have ha : a < 256 := h a (by simp)
      have hb : b < 256 := h b (by simp)
      have h1 : val (chr (a / 4)) = some (a / 4) := val_chr _ (by omega)
      have h2 : val (chr (a % 4 * 16 + b / 16)) = some (a % 4 * 16 + b / 16) :=
        val_chr _ (by omega)
      have h3 : val (chr (b % 16 * 4)) = some (b % 16 * 4) := val_chr _ (by omega)
      have e1 : b % 16 * 4 % 4 = 0 := by omega
      have e2 : a / 4 * 4 + (a % 4 * 16 + b / 16) / 16 = a := by omega
      have e3 : (a % 4 * 16 + b / 16) % 16 * 16 + b % 16 * 4 / 4 = b := by omega
      simp [encodeChars, decodeChars, h1, h2, h3, e1, e2, e3]
      omega
  | a :: b :: c :: rest, h => by
      have ha : a < 256 := h a (by simp)
      have hb : b < 256 := h b (by simp)
      have hc : c < 256 := h c (by simp)
      have ih := decodeChars_encodeChars rest (fun x hx => h x (by simp [hx]))
      have h1 : val (chr (a / 4)) = some (a / 4) := val_chr _ (by omega)
      have h2 : val (chr (a % 4 * 16 + b / 16)) = some (a % 4 * 16 + b / 16) :=
        val_chr _ (by omega)
      have h3 : val (chr (b % 16 * 4 + c / 64)) = some (b % 16 * 4 + c / 64) :=
        val_chr _ (by omega)
      have h4 : val (chr (c % 64)) = some (c % 64) := val_chr _ (by omega)
      have e1 : a / 4 * 4 + (a % 4 * 16 + b / 16) / 16 = a := by omega
      have e2 : (a % 4 * 16 + b / 16) % 16 * 16 + (b % 16 * 4 + c / 64) / 4 = b := by omega
      have e3 : (b % 16 * 4 + c / 64) % 4 * 64 + c % 64 = c := by omega
      simp [encodeChars, decodeChars, h1, h2, h3, h4, ih, e1, e2, e3]

end B64

/-! ### C3 development: CBOR byte layer -/

namespace Cbor

lemma natToBeBytes_length : ∀ k n : Nat, (natToBeBytes k n).length = k
  | 0, _ => rfl
  | k + 1, n => by simp [natToBeBytes, natToBeBytes_length k]

lemma natToBeBytes_mem_lt : ∀ k n : Nat, ∀ b ∈ natToBeBytes k n, b < 256
  | 0, _ => by simp [natToBeBytes]
  | k + 1, n => by
      intro b hb
      simp only [natToBeBytes, List.mem_append, List.mem_singleton] at hb
      rcases hb with hb | hb
      · exact natToBeBytes_mem_lt k _ b hb
      · omega

lemma beBytesToNat_append_one (l : List Nat) (b : Nat) :
    beBytesToNat (l ++ [b]) = beBytesToNat l * 256 + b := by
  simp [beBytesToNat, List.foldl_append]

lemma beBytesToNat_natToBeBytes : ∀ k n : Nat, n < 256 ^ k →
    beBytesToNat (natToBeBytes k n) = n
  | 0, n, h => by
      simp at h
      simp [natToBeBytes, beBytesToNat, h]
  | k + 1, n, h => by
      have hdiv : n / 256 < 256 ^ k := by
        rw [Nat.div_lt_iff_lt_mul (by norm_num : (0:Nat) < 256)]
        calc n < 256 ^ (k + 1) := h
          _ = 256 ^ k * 256 := by rw [pow_succ]
      rw [natToBeBytes, beBytesToNat_append_one,
        beBytesToNat_natToBeBytes k (n / 256) hdiv]
      omega

lemma natToBeBytes_beBytesToNat (l : List Nat) (h : ∀ b ∈ l, b < 256) :
    natToBeBytes l.length (beBytesToNat l) = l := by
  induction l using List.reverseRecOn with
  | nil => rfl
  | append_singleton xs b ih =>
      have hb : b < 256 := h b (by simp)
      have hlen : (xs ++ [b]).length = xs.length + 1 := by simp
      rw [beBytesToNat_append_one, hlen, natToBeBytes]
      have e1 : (beBytesToNat xs * 256 + b) / 256 = beBytesToNat xs := by omega
      have e2 : (beBytesToNat xs * 256 + b) % 256 = b := by omega
      rw [e1, e2, ih (fun x hx => h x (by simp [hx]))]

lemma beBytesToNat_lt (l : List Nat) (h : ∀ b ∈ l, b < 256) :
    beBytesToNat l < 256 ^ l.length := by
  induction l using List.reverseRecOn with
  | nil => simp [beBytesToNat]
  | append_singleton xs b ih =>
      have hb : b < 256 := h b (by simp)
      have h1 := ih (fun x hx => h x (by simp [hx]))
      have hlen : (xs ++ [b]).length = xs.length + 1 := by simp
      rw [beBytesToNat_append_one, hlen, pow_succ]
      calc beBytesToNat xs * 256 + b < (beBytesToNat xs + 1) * 256 := by omega
        _ ≤ 256 ^ xs.length * 256 := Nat.mul_le_mul_right 256 (Nat.succ_le_of_lt h1)

lemma readBytes_append : ∀ xs rest : List Nat,
    readBytes xs.length (xs ++ rest) = some (xs, rest)
  | [], _ => rfl
  | x :: xs, rest => by
      show readBytes (xs.length + 1) (x :: (xs ++ rest)) = _
      rw [readBytes, readBytes_append xs rest]
      rfl

lemma readHead_head (major n : Nat) (rest : List Nat)
    (hm : major ≤ 5) (hn : n < 2 ^ 64) :
    readHead (head major n ++ rest) = some (major, n, rest) := by
  unfold head
  by_cases h1 : n < 24
  · rw [if_pos h1]
    show readHead ((major * 32 + n) :: rest) = _
    have e1 : (major * 32 + n) / 32 = major := by omega
    have e2 : (major * 32 + n) % 32 = n := by omega
    simp [readHead, e1, e2, h1]
  · rw [if_neg h1]
    by_cases h2 : n < 2 ^ 8
    · rw [if_pos h2]
      show readHead ((major * 32 + 24) :: n :: rest) = _
      have e1 : (major * 32 + 24) / 32 = major := by omega
      have e2 : (major * 32 + 24) % 32 = 24 := by omega
      simp [readHead, e1, e2]
    · rw [if_neg h2]
      by_cases h3 : n < 2 ^ 16
      · rw [if_pos h3]
        show readHead ((major * 32 + 25) :: (natToBeBytes 2 n ++ rest)) = _
        have e1 : (major * 32 + 25) / 32 = major := by omega
        have e2 : (major * 32 + 25) % 32 = 25 := by omega
        have hr : readBytes 2 (natToBeBytes 2 n ++ rest) =
            some (natToBeBytes 2 n, rest) := by
          have hl := natToBeBytes_length 2 n
          rw [← hl]; exact readBytes_append _ _
        have hv : beBytesToNat (natToBeBytes 2 n) = n :=
          beBytesToNat_natToBeBytes 2 n (by norm_num at h3 ⊢ <;> omega)
        simp [readHead, e1, e2, hr, hv]
      · rw [if_neg h3]
        by_cases h4 : n < 2 ^ 32
        · rw [if_pos h4]
          show readHead ((major * 32 + 26) :: (natToBeBytes 4 n ++ rest)) = _
          have e1 : (major * 32 + 26) / 32 = major := by omega
          have e2 : (major * 32 + 26) % 32 = 26 := by omega
          have hr : readBytes 4 (natToBeBytes 4 n ++ rest) =
              some (natToBeBytes 4 n, rest) := by
            have hl := natToBeBytes_length 4 n
            rw [← hl]; exact readBytes_append _ _
          have hv : beBytesToNat (natToBeBytes 4 n) = n :=
            beBytesToNat_natToBeBytes 4 n (by norm_num at h4 ⊢ <;> omega)
          simp [readHead, e1, e2, hr, hv]
        · rw [if_neg h4]
          show readHead ((major * 32 + 27) :: (natToBeBytes 8 n ++ rest)) = _
          have e1 : (major * 32 + 27) / 32 = major := by omega
          have e2 : (major * 32 + 27) % 32 = 27 := by omega
          have hr : readBytes 8 (natToBeBytes 8 n ++ rest) =
              some (natToBeBytes 8 n, rest) := by
            have hl := natToBeBytes_length 8 n
            rw [← hl]; exact readBytes_append _ _
          have hv : beBytesToNat (natToBeBytes 8 n) = n :=
            beBytesToNat_natToBeBytes 8 n (by norm_num at hn ⊢ <;> omega)
          simp [readHead, e1, e2, hr, hv]

lemma head_cons (major n : Nat) (hm : major ≤ 5) :
    ∃ b t, head major n = b :: t ∧ b < 188 := by
  unfold head
  by_cases h1 : n < 24
  · exact ⟨major * 32 + n, [], by rw [if_pos h1], by omega⟩
  · rw [if_neg h1]
    by_cases h2 : n < 2 ^ 8
    · exact ⟨major * 32 + 24, [n], by rw [if_pos h2], by omega⟩
    · rw [if_neg h2]
      by_cases h3 : n < 2 ^ 16
      · exact ⟨major * 32 + 25, natToBeBytes 2 n, by rw [if_pos h3], by omega⟩
      · rw [if_neg h3]
        by_cases h4 : n < 2 ^ 32
        · exact ⟨major * 32 + 26, natToBeBytes 4 n, by rw [if_pos h4], by omega⟩
        · exact ⟨major * 32 + 27, natToBeBytes 8 n, by rw [if_neg h4], by omega⟩

lemma head_mem_lt (major n : Nat) (hm : major ≤ 5) (hn : n < 2 ^ 64) :
    ∀ b ∈ head major n, b < 256 := by
  unfold head
  by_cases h1 : n < 24
  · rw [if_pos h1]; intro b hb; simp at hb; omega
  · rw [if_neg h1]
    by_cases h2 : n < 2 ^ 8
    · rw [if_pos h2]
      intro b hb; simp at hb
      rcases hb with hb | hb <;> omega
    · rw [if_neg h2]
      by_cases h3 : n < 2 ^ 16
      · rw [if_pos h3]
        intro b hb; simp at hb
        rcases hb with hb | hb
        · omega
        · exact natToBeBytes_mem_lt 2 n b hb
      · rw [if_neg h3]
        by_cases h4 : n < 2 ^ 32
        · rw [if_pos h4]
          intro b hb; simp at hb
          rcases hb with hb | hb
          · omega
          · exact natToBeBytes_mem_lt 4 n b hb
        · rw [if_neg h4]
          intro b hb; simp at hb
          rcases hb with hb | hb
          · omega
          · exact natToBeBytes_mem_lt 8 n b hb

lemma head_length_pos (major n : Nat) : 1 ≤ (head major n).length := by
  unfold head
  by_cases h1 : n < 24
  · rw [if_pos h1]; simp
  · rw [if_neg h1]
    by_cases h2 : n < 2 ^ 8
    · rw [if_pos h2]; simp
    · rw [if_neg h2]
      by_cases h3 : n < 2 ^ 16
      · rw [if_pos h3]; simp
      · rw [if_neg h3]
        by_cases h4 : n < 2 ^ 32
        · rw [if_pos h4]; simp
        · rw [if_neg h4]; simp

lemma sizeV_pos : ∀ v : Value, 1 ≤ sizeV v := by
  intro v
  cases v <;> simp [sizeV] <;> omega

lemma sizeL_pos : ∀ l : List Value, 1 ≤ sizeL l
  | [] => le_refl 1
  | v :: vs => by
      have := sizeV_pos v
      simp only [sizeL]
      omega

lemma sizeP_pos : ∀ l : List (Value × Value), 1 ≤ sizeP l
  | [] => le_refl 1
  | kv :: kvs => by
      have := sizeV_pos kv.1
      simp only [sizeP]
      omega

end Cbor

/-! ### C3 development: CBOR value round trip -/

namespace Cbor

lemma decodeValue_head_step (f major n : Nat) (tail : List Nat)
    (hm : major ≤ 5) (hn : n < 2 ^ 64) :
    decodeValue (f + 1) (head major n ++ tail) =
      (if major = 0 then some (.nat n, tail)
       else if major = 3 then
         match readBytes n tail with
         | none => none
         | some (payload, rest) =>
           match bytesToText payload with
           | none => none
           | some s => some (.text s, rest)
       else if major = 4 then
         match decodeCount f n tail with
         | none => none
         | some (l, rest) => some (.arr l, rest)
       else if major = 5 then
         match decodePairCount f n tail with
         | none => none
         | some (l, rest) => some (.map l, rest)
       else none) := by
  obtain ⟨b, t, hbt, hblt⟩ := head_cons major n hm
  rw [hbt, List.cons_append, decodeValue]
  rw [if_neg (by omega : ¬ b = 246)]
  rw [← List.cons_append, ← hbt, readHead_head major n tail hm hn]

lemma decode_encode_fuel : ∀ fuel : Nat,
    (∀ v rest, WFV v → sizeV v ≤ fuel →
      decodeValue fuel (encodeValue v ++ rest) = some (v, rest)) ∧
    (∀ l rest, WFL l → sizeL l ≤ fuel →
      decodeCount fuel l.length (encodeList l ++ rest) = some (l, rest)) ∧
    (∀ l rest, WFP l → sizeP l ≤ fuel →
      decodePairCount fuel l.length (encodePairs l ++ rest) = some (l, rest)) := by
  intro fuel
  induction fuel with
  | zero =>
      refine ⟨fun v rest _ hsz => ?_, fun l rest _ hsz => ?_, fun l rest _ hsz => ?_⟩
      · exact absurd hsz (by have := sizeV_pos v; omega)
      · exact absurd hsz (by have := sizeL_pos l; omega)
      · exact absurd hsz (by have := sizeP_pos l; omega)
  | succ f ih =>
      obtain ⟨ihV, ihL, ihP⟩ := ih
      refine ⟨fun v rest hwf hsz => ?_, fun l rest hwf hsz => ?_,
        fun l rest hwf hsz => ?_⟩
      · cases v with
        | nat n =>
            have hn : n < 2 ^ 64 := hwf
            show decodeValue (f + 1) (head 0 n ++ rest) = _
            rw [decodeValue_head_step f 0 n rest (by omega) hn]
            simp
        | text s =>
            obtain ⟨hchars, hlen⟩ : (∀ c ∈ s.data, c.toNat < 128) ∧
                s.data.length < 2 ^ 64 := hwf
            show decodeValue (f + 1)
              ((head 3 s.data.length ++ s.data.map Char.toNat) ++ rest) = _
            rw [List.append_assoc,
              decodeValue_head_step f 3 s.data.length _ (by omega) hlen]
            have hml : (s.data.map Char.toNat).length = s.data.length := by simp
            have hrb : readBytes s.data.length (s.data.map Char.toNat ++ rest) =
                some (s.data.map Char.toNat, rest) := by
              rw [← hml]; exact readBytes_append _ _
            have hcond : (s.data.map Char.toNat).all (· < 128) = true := by
              rw [List.all_eq_true]
              intro x hx
              obtain ⟨c, hc, rfl⟩ := List.mem_map.mp hx
              simpa using hchars c hc
            have htx : bytesToText (s.data.map Char.toNat) = some s := by
              rw [bytesToText, if_pos hcond]
              have hmap : (s.data.map Char.toNat).map Char.ofNat = s.data := by
                rw [List.map_map]
                conv_rhs => rw [← List.map_id s.data]
                exact List.map_congr_left (fun c _ => Char.ofNat_toNat c)
              rw [hmap]
            rw [if_neg (by norm_num : ¬ (3:Nat) = 0), if_pos rfl]
            simp only [hrb, htx]
        | null =>
            show decodeValue (f + 1) ([246] ++ rest) = _
            simp [decodeValue]
        | arr l =>
            obtain ⟨hlen, hl⟩ : l.length < 2 ^ 64 ∧ WFL l := hwf
            have hsz' : sizeL l ≤ f := by
              have : sizeV (.arr l) = sizeL l + 1 := rfl
              omega
            show decodeValue (f + 1) ((head 4 l.length ++ encodeList l) ++ rest) = _
            rw [List.append_assoc, decodeValue_head_step f 4 l.length _ (by omega) hlen]
            rw [if_neg (by norm_num : ¬ (4:Nat) = 0), if_neg (by norm_num : ¬ (4:Nat) = 3),
              if_pos rfl]
            simp only [ihL l rest hl hsz']
        | map l =>
            obtain ⟨hlen, hl⟩ : l.length < 2 ^ 64 ∧ WFP l := hwf
            have hsz' : sizeP l ≤ f := by
              have : sizeV (.map l) = sizeP l + 1 := rfl
              omega
            show decodeValue (f + 1) ((head 5 l.length ++ encodePairs l) ++ rest) = _
            rw [List.append_assoc, decodeValue_head_step f 5 l.length _ (by omega) hlen]
            rw [if_neg (by norm_num : ¬ (5:Nat) = 0), if_neg (by norm_num : ¬ (5:Nat) = 3),
              if_neg (by norm_num : ¬ (5:Nat) = 4), if_pos rfl]
            simp only [ihP l rest hl hsz']
      · cases l with
        | nil =>
            show decodeCount (f + 1) 0 (encodeList [] ++ rest) = some ([], rest)
            simp [encodeList, decodeCount]
        | cons v vs =>
            obtain ⟨hv, hvs⟩ : WFV v ∧ WFL vs := hwf
            have hszv : sizeV v ≤ f := by
              have h1 : sizeL (v :: vs) = sizeV v + sizeL vs := rfl
              have := sizeL_pos vs
              omega
            have hszl : sizeL vs ≤ f := by
              have h1 : sizeL (v :: vs) = sizeV v + sizeL vs := rfl
              have := sizeV_pos v
              omega
            show decodeCount (f + 1) (vs.length + 1)
              ((encodeValue v ++ encodeList vs) ++ rest) = _
            rw [List.append_assoc]
            simp only [decodeCount, ihV v _ hv hszv, ihL vs rest hvs hszl]
      · cases l with
        | nil =>
            show decodePairCount (f + 1) 0 (encodePairs [] ++ rest) = some ([], rest)
            simp [encodePairs, decodePairCount]
        | cons kv kvs =>
            obtain ⟨k, v⟩ := kv
            obtain ⟨hk, hv, hkvs⟩ : WFV k ∧ WFV v ∧ WFP kvs := hwf
            have h1 : sizeP ((k, v) :: kvs) = sizeV k + sizeV v + sizeP kvs := rfl
            have hszk : sizeV k ≤ f := by
              have := sizeV_pos v; have := sizeP_pos kvs; omega
            have hszv : sizeV v ≤ f := by
              have := sizeV_pos k; have := sizeP_pos kvs; omega
            have hszp : sizeP kvs ≤ f := by
              have := sizeV_pos k; have := sizeV_pos v; omega
            show decodePairCount (f + 1) (kvs.length + 1)
              ((encodeValue k ++ encodeValue v ++ encodePairs kvs) ++ rest) = _
            simp only [List.append_assoc]
            simp only [decodePairCount, ihV k _ hk hszk, ihV v _ hv hszv,
              ihP kvs rest hkvs hszp]

lemma size_le_encode_fuel : ∀ fuel : Nat,
    (∀ v : Value, sizeV v ≤ fuel → sizeV v ≤ 2 * (encodeValue v).length) ∧
    (∀ l : List Value, sizeL l ≤ fuel → sizeL l ≤ 2 * (encodeList l).length + 1) ∧
    (∀ l : List (Value × Value), sizeP l ≤ fuel →
      sizeP l ≤ 2 * (encodePairs l).length + 1) := by
  intro fuel
  induction fuel with
  | zero =>
      refine ⟨fun v hsz => ?_, fun l hsz => ?_, fun l hsz => ?_⟩
      · exact absurd hsz (by have := sizeV_pos v; omega)
      · exact absurd hsz (by have := sizeL_pos l; omega)
      · exact absurd hsz (by have := sizeP_pos l; omega)
  | succ f ih =>
      obtain ⟨ihV, ihL, ihP⟩ := ih
      refine ⟨fun v hsz => ?_, fun l hsz => ?_, fun l hsz => ?_⟩
      · cases v with
        | nat n =>
            have := head_length_pos 0 n
            show 1 ≤ 2 * (head 0 n).length
            omega
        | text s =>
            have := head_length_pos 3 s.data.length
            show 1 ≤ 2 * (head 3 s.data.length ++ s.data.map Char.toNat).length
            simp only [List.length_append]
            omega
        | null =>
            show 1 ≤ 2 * ([246] : List Nat).length
            simp
        | arr l =>
            have h1 : sizeV (.arr l) = sizeL l + 1 := rfl
            have h2 := ihL l (by omega)
            have := head_length_pos 4 l.length
            show sizeL l + 1 ≤ 2 * (head 4 l.length ++ encodeList l).length
            simp only [List.length_append]
            omega
        | map l =>
            have h1 : sizeV (.map l) = sizeP l + 1 := rfl
            have h2 := ihP l (by omega)
            have := head_length_pos 5 l.length
            show sizeP l + 1 ≤ 2 * (head 5 l.length ++ encodePairs l).length
            simp only [List.length_append]
            omega
      · cases l with
        | nil =>
            show (1:Nat) ≤ 2 * ([] : List Nat).length + 1
            simp
        | cons v vs =>
            have h1 : sizeL (v :: vs) = sizeV v + sizeL vs := rfl
            have hv := ihV v (by have := sizeL_pos vs; omega)
            have hvs := ihL vs (by have := sizeV_pos v; omega)
            show sizeL (v :: vs) ≤ 2 * (encodeValue v ++ encodeList vs).length + 1
            simp only [List.length_append]
            omega
      · cases l with
        | nil =>
            show (1:Nat) ≤ 2 * ([] : List Nat).length + 1
            simp
        | cons kv kvs =>
            obtain ⟨k, v⟩ := kv
            have h1 : sizeP ((k, v) :: kvs) = sizeV k + sizeV v + sizeP kvs := rfl
            have hk := ihV k (by have := sizeV_pos v; have := sizeP_pos kvs; omega)
            have hv := ihV v (by have := sizeV_pos k; have := sizeP_pos kvs; omega)
            have hkvs := ihP kvs
              (by have := sizeV_pos k; have := sizeV_pos v; omega)
            show sizeP ((k, v) :: kvs) ≤
              2 * (encodeValue k ++ encodeValue v ++ encodePairs kvs).length + 1
            simp only [List.length_append]
            omega

lemma encode_bytes_lt_fuel : ∀ fuel : Nat,
    (∀ v : Value, sizeV v ≤ fuel → WFV v → ∀ b ∈ encodeValue v, b < 256) ∧
    (∀ l : List Value, sizeL l ≤ fuel → WFL l → ∀ b ∈ encodeList l, b < 256) ∧
    (∀ l : List (Value × Value), sizeP l ≤ fuel → WFP l →
      ∀ b ∈ encodePairs l, b < 256) := by
  intro fuel
  induction fuel with
  | zero =>
      refine ⟨fun v hsz => ?_, fun l hsz => ?_, fun l hsz => ?_⟩
      · exact absurd hsz (by have := sizeV_pos v; omega)
      · exact absurd hsz (by have := sizeL_pos l; omega)
      · exact absurd hsz (by have := sizeP_pos l; omega)
  | succ f ih =>
      obtain ⟨ihV, ihL, ihP⟩ := ih
      refine ⟨fun v hsz hwf => ?_, fun l hsz hwf => ?_, fun l hsz hwf => ?_⟩
      · cases v with
        | nat n =>
            have hn : n < 2 ^ 64 := hwf
            show ∀ b ∈ head 0 n, b < 256
            exact head_mem_lt 0 n (by omega) hn
        | text s =>
            obtain ⟨hchars, hlen⟩ : (∀ c ∈ s.data, c.toNat < 128) ∧
                s.data.length < 2 ^ 64 := hwf
            show ∀ b ∈ head 3 s.data.length ++ s.data.map Char.toNat, b < 256
            intro b hb
            rcases List.mem_append.mp hb with hb | hb
            · exact head_mem_lt 3 _ (by omega) hlen b hb
            · obtain ⟨c, hc, hcb⟩ := List.mem_map.mp hb
              have := hchars c hc
              omega
        | null =>
            show ∀ b ∈ ([246] : List Nat), b < 256
            simp
        | arr l =>
            obtain ⟨hlen, hl⟩ : l.length < 2 ^ 64 ∧ WFL l := hwf
            have h1 : sizeV (.arr l) = sizeL l + 1 := rfl
            show ∀ b ∈ head 4 l.length ++ encodeList l, b < 256
            intro b hb
            rcases List.mem_append.mp hb with hb | hb
            · exact head_mem_lt 4 _ (by omega) hlen b hb
            · exact ihL l (by omega) hl b hb
        | map l =>
            obtain ⟨hlen, hl⟩ : l.length < 2 ^ 64 ∧ WFP l := hwf
            have h1 : sizeV (.map l) = sizeP l + 1 := rfl
            show ∀ b ∈ head 5 l.length ++ encodePairs l, b < 256
            intro b hb
            rcases List.mem_append.mp hb with hb | hb
            · exact head_mem_lt 5 _ (by omega) hlen b hb
            · exact ihP l (by omega) hl b hb
      · cases l with
        | nil => simp [encodeList]
        | cons v vs =>
            obtain ⟨hv, hvs⟩ : WFV v ∧ WFL vs := hwf
            have h1 : sizeL (v :: vs) = sizeV v + sizeL vs := rfl
            show ∀ b ∈ encodeValue v ++ encodeList vs, b < 256
            intro b hb
            rcases List.mem_append.mp hb with hb | hb
            · exact ihV v (by have := sizeL_pos vs; omega) hv b hb
            · exact ihL vs (by have := sizeV_pos v; omega) hvs b hb
      · cases l with
        | nil => simp [encodePairs]
        | cons kv kvs =>
            obtain ⟨k, v⟩ := kv
            obtain ⟨hk, hv, hkvs⟩ : WFV k ∧ WFV v ∧ WFP kvs := hwf
            have h1 : sizeP ((k, v) :: kvs) = sizeV k + sizeV v + sizeP kvs := rfl
            show ∀ b ∈ encodeValue k ++ encodeValue v ++ encodePairs kvs, b < 256
            intro b hb
            rcases List.mem_append.mp hb with hb | hb
            · rcases List.mem_append.mp hb with hb | hb
              · refine ihV k ?_ hk b hb
                have := sizeV_pos v; have := sizeP_pos kvs; omega
              · refine ihV v ?_ hv b hb
                have := sizeV_pos k; have := sizeP_pos kvs; omega
            · refine ihP kvs ?_ hkvs b hb
              have := sizeV_pos k; have := sizeV_pos v; omega

lemma encodeValue_bytes_lt (v : Value) (h : WFV v) :
    ∀ b ∈ encodeValue v, b < 256 :=
  (encode_bytes_lt_fuel (sizeV v)).1 v (le_refl _) h

lemma decode_encode_value (v : Value) (hwf : WFV v) :
    decodeValue (2 * (encodeValue v).length + 2) (encodeValue v) = some (v, []) := by
  have h1 := (size_le_encode_fuel (sizeV v)).1 v (le_refl _)
  have h2 := (decode_encode_fuel (2 * (encodeValue v).length + 2)).1 v [] hwf (by omega)
  simpa using h2
end Cbor

/-! ### C3 development: decimal and version display round trip -/

lemma digit_facts : ∀ d : Nat, d < 10 →
    ((digitChar d).isDigit = true ∧ (digitChar d).toNat = 48 + d ∧
      digitChar d ≠ '.' ∧ digitChar d ≠ '-') := by decide

lemma digitsValLE_cons (d : Nat) (l : List Nat) :
    digitsValLE (d :: l) = digitsValLE l * 10 + d := rfl

lemma natDigitsLEAux_spec : ∀ fuel n : Nat, n ≤ fuel →
    digitsValLE (natDigitsLEAux fuel n) = n ∧
    (∀ d ∈ natDigitsLEAux fuel n, d < 10) ∧
    natDigitsLEAux fuel n ≠ []
  | 0, n, h => by
      have hn : n = 0 := by omega
      subst hn
      refine ⟨?_, ?_, by simp [natDigitsLEAux]⟩
      · simp [natDigitsLEAux, digitsValLE]
      · simp [natDigitsLEAux]
  | fuel + 1, n, h => by
      by_cases h10 : n < 10
      · have e : natDigitsLEAux (fuel + 1) n = [n] := by
          simp [natDigitsLEAux, h10]
        refine ⟨?_, ?_, by simp [e]⟩
        · rw [e, digitsValLE_cons]
          simp [digitsValLE]
        · rw [e]; simpa using h10
      · have e : natDigitsLEAux (fuel + 1) n =
            n % 10 :: natDigitsLEAux fuel (n / 10) := by
          simp [natDigitsLEAux, h10]
        obtain ⟨ih1, ih2, ih3⟩ := natDigitsLEAux_spec fuel (n / 10) (by omega)
        refine ⟨?_, ?_, by simp [e]⟩
        · rw [e, digitsValLE_cons, ih1]
          omega
        · rw [e]
          intro d hd
          rcases List.mem_cons.mp hd with hd | hd
          · omega
          · exact ih2 d hd

lemma natDigitsLE_spec (n : Nat) :
    digitsValLE (natDigitsLE n) = n ∧ (∀ d ∈ natDigitsLE n, d < 10) ∧
      natDigitsLE n ≠ [] :=
  natDigitsLEAux_spec n n (le_refl n)

lemma natToStr_chars (n : Nat) :
    ∀ c ∈ (natToStr n).data, c.isDigit = true ∧ c ≠ '.' ∧ c ≠ '-' := by
  intro c hc
  obtain ⟨_, h2, _⟩ := natDigitsLE_spec n
  have hc' : c ∈ (natDigitsLE n).reverse.map digitChar := hc
  obtain ⟨d, hd, rfl⟩ := List.mem_map.mp hc'
  have hdlt : d < 10 := h2 d (List.mem_reverse.mp hd)
  exact ⟨(digit_facts d hdlt).1, (digit_facts d hdlt).2.2.1,
    (digit_facts d hdlt).2.2.2⟩

lemma foldr_congr_mem (l : List Nat) (f g : Nat → Nat → Nat)
    (h : ∀ d ∈ l, ∀ acc, f d acc = g d acc) :
    l.foldr f 0 = l.foldr g 0 := by
  induction l with
  | nil => rfl
  | cons x xs ih =>
      simp only [List.foldr_cons]
      rw [h x (by simp), ih (fun d hd => h d (by simp [hd]))]

lemma parseNatCs_natToStr (n : Nat) : parseNatCs (natToStr n).data = some n := by
  obtain ⟨h1, h2, h3⟩ := natDigitsLE_spec n
  show parseNatCs ((natDigitsLE n).reverse.map digitChar) = some n
  have hne : (natDigitsLE n).reverse.map digitChar ≠ [] := by
    simp [h3]
  have hdig : ((natDigitsLE n).reverse.map digitChar).all Char.isDigit = true := by
    rw [List.all_eq_true]
    intro c hc
    obtain ⟨d, hd, rfl⟩ := List.mem_map.mp hc
    exact (digit_facts d (h2 d (List.mem_reverse.mp hd))).1
  rw [parseNatCs, if_pos ⟨hne, hdig⟩]
  congr 1
  rw [List.map_reverse, List.foldl_reverse, List.foldr_map]
  have hcong : (natDigitsLE n).foldr
      (fun x y => y * 10 + ((digitChar x).toNat - 48)) 0 =
      (natDigitsLE n).foldr (fun d acc => acc * 10 + d) 0 := by
    apply foldr_congr_mem
    intro d hd acc
    have := (digit_facts d (h2 d hd)).2.1
    omega
  rw [hcong]
  exact h1

/-! ### C3 development: splitting and version parsing -/

lemma takeWhile_all_stop (p : Char → Bool) :
    ∀ xs : List Char, (∀ c ∈ xs, p c = true) → ∀ y ys, p y = false →
      ((xs ++ y :: ys).takeWhile p = xs ∧ (xs ++ y :: ys).dropWhile p = y :: ys)
  | [], _, y, ys, hy => by
      simp [List.takeWhile, List.dropWhile, hy]
  | x :: xs, h, y, ys, hy => by
      have hx : p x = true := h x (by simp)
      have ih := takeWhile_all_stop p xs (fun c hc => h c (by simp [hc])) y ys hy
      simp only [List.cons_append, List.takeWhile, List.dropWhile, hx,
        List.append_eq]
      exact ⟨by rw [ih.1], by rw [ih.2]⟩

lemma takeWhile_all (p : Char → Bool) :
    ∀ xs : List Char, (∀ c ∈ xs, p c = true) →
      (xs.takeWhile p = xs ∧ xs.dropWhile p = [])
  | [], _ => ⟨rfl, rfl⟩
  | x :: xs, h => by
      have hx : p x = true := h x (by simp)
      have ih := takeWhile_all p xs (fun c hc => h c (by simp [hc]))
      simp only [List.takeWhile, List.dropWhile, hx, List.append_eq]
      exact ⟨by rw [ih.1], by rw [ih.2]⟩

lemma splitOnCharCs_ne_nil (sep : Char) : ∀ cs : List Char,
    splitOnCharCs sep cs ≠ []
  | [] => by simp [splitOnCharCs]
  | c :: cs => by
      by_cases hc : c = sep
      · simp [splitOnCharCs, hc]
      · have := splitOnCharCs_ne_nil sep cs
        simp only [splitOnCharCs, hc, if_false]
        match e : splitOnCharCs sep cs with
        | [] => exact absurd e this
        | p :: ps => simp

lemma splitOnCharCs_no_sep (sep : Char) : ∀ cs : List Char, sep ∉ cs →
    splitOnCharCs sep cs = [cs]
  | [], _ => rfl
  | c :: cs, h => by
      have hc : ¬ c = sep := fun e => h (by simp [e])
      have ih := splitOnCharCs_no_sep sep cs (fun e => h (by simp [e]))
      simp [splitOnCharCs, hc, ih]

lemma splitOnCharCs_append (sep : Char) : ∀ xs ys : List Char, sep ∉ xs →
    splitOnCharCs sep (xs ++ sep :: ys) = xs :: splitOnCharCs sep ys
  | [], ys, _ => by simp [splitOnCharCs]
  | x :: xs, ys, h => by
      have hx : ¬ x = sep := fun e => h (by simp [e])
      have ih := splitOnCharCs_append sep xs ys (fun e => h (by simp [e]))
      simp [splitOnCharCs, hx, ih]

lemma splitOnCharCs_join : ∀ ss : List String, ss ≠ [] →
    (∀ s ∈ ss, '.' ∉ s.data) →
    splitOnCharCs '.' (strJoinSep "." ss).data = ss.map String.data
  | [], hne, _ => absurd rfl hne
  | [x], _, h => by
      show splitOnCharCs '.' x.data = [x.data]
      exact splitOnCharCs_no_sep '.' x.data (h x (by simp))
  | x :: y :: rest, _, h => by
      show splitOnCharCs '.' (x ++ "." ++ strJoinSep "." (y :: rest)).data = _
      have hd : (x ++ "." ++ strJoinSep "." (y :: rest)).data =
          x.data ++ '.' :: (strJoinSep "." (y :: rest)).data := by
        simp [String.data_append]
      rw [hd, splitOnCharCs_append '.' _ _ (h x (by simp))]
      rw [splitOnCharCs_join (y :: rest) (by simp) (fun s hs => h s (by simp [hs]))]
      rfl

lemma parsePreId_toStr (i : PreId) (h : i.WF) :
    parsePreId (PreId.toStr i).data = some i := by
  cases i with
  | num n =>
      show parsePreId (natToStr n).data = some (.num n)
      have hne : ¬ (natToStr n).data = [] := by
        obtain ⟨_, _, h3⟩ := natDigitsLE_spec n
        show ¬ (natDigitsLE n).reverse.map digitChar = []
        simp [h3]
      have hdig : (natToStr n).data.all Char.isDigit = true := by
        rw [List.all_eq_true]
        exact fun c hc => (natToStr_chars n c hc).1
      rw [parsePreId, if_neg hne, if_pos hdig, parseNatCs_natToStr n]
      rfl
  | str s =>
      obtain ⟨h1, h2, h3, h4⟩ := h
      have h2' : s.data.all Char.isDigit = false := by
        rcases Bool.eq_false_or_eq_true (s.data.all Char.isDigit) with e | e
        all_goals first | exact e | exact absurd e h2
      show parsePreId s.data = some (.str s)
      rw [parsePreId, if_neg h1, h2']
      rfl

lemma mapM_parsePreId : ∀ l : List PreId, (∀ i ∈ l, i.WF) →
    ((l.map PreId.toStr).map String.data).mapM parsePreId = some l
  | [], _ => rfl
  | i :: is_, h => by
      simp only [List.map_cons, List.mapM_cons]
      rw [parsePreId_toStr i (h i (by simp)),
        mapM_parsePreId is_ (fun j hj => h j (by simp [hj]))]
      rfl

lemma toStr_main_data (M m p : Nat) :
    (natToStr M ++ "." ++ natToStr m ++ "." ++ natToStr p).data =
      (natToStr M).data ++ '.' :: ((natToStr m).data ++ '.' :: (natToStr p).data) := by
  simp [String.data_append]

lemma splitOnCharCs_main (M m p : Nat) :
    splitOnCharCs '.' ((natToStr M).data ++ '.' ::
        ((natToStr m).data ++ '.' :: (natToStr p).data)) =
      [(natToStr M).data, (natToStr m).data, (natToStr p).data] := by
  have hM : '.' ∉ (natToStr M).data := fun hc => (natToStr_chars M _ hc).2.1 rfl
  have hm : '.' ∉ (natToStr m).data := fun hc => (natToStr_chars m _ hc).2.1 rfl
  have hp : '.' ∉ (natToStr p).data := fun hc => (natToStr_chars p _ hc).2.1 rfl
  rw [splitOnCharCs_append '.' _ _ hM, splitOnCharCs_append '.' _ _ hm,
    splitOnCharCs_no_sep '.' _ hp]

lemma parseVersion_toStr (v : SemVer) (hwf : v.WF) : parseVersion v.toStr = some v := by
  obtain ⟨M, m, p, pre⟩ := v
  obtain ⟨hpre, _⟩ := hwf
  have hMd : ∀ c ∈ (natToStr M).data ++ '.' ::
      ((natToStr m).data ++ '.' :: (natToStr p).data), (c ≠ '-' : Bool) = true := by
    intro c hc
    simp only [List.mem_append, List.mem_cons] at hc
    have : c ≠ '-' := by
      rcases hc with hc | hc | hc
      · exact (natToStr_chars M c hc).2.2
      · exact fun e => by simp [hc, e] at *
      · rcases hc with hc | hc | hc
        · exact (natToStr_chars m c hc).2.2
        · exact fun e => by simp [hc, e] at *
        · exact (natToStr_chars p c hc).2.2
    simpa using this
  cases pre with
  | nil =>
      have htos : SemVer.toStr ⟨M, m, p, []⟩ =
          natToStr M ++ "." ++ natToStr m ++ "." ++ natToStr p := by
        simp [SemVer.toStr]
      rw [parseVersion, htos, toStr_main_data]
      have htw := takeWhile_all (fun c => c ≠ '-') _ hMd
      rw [htw.1, htw.2, splitOnCharCs_main M m p]
      simp only [parseNatCs_natToStr, Option.some_bind]
      rfl
  | cons i is_ =>
      have htos : SemVer.toStr ⟨M, m, p, i :: is_⟩ =
          (natToStr M ++ "." ++ natToStr m ++ "." ++ natToStr p) ++
            ("-" ++ strJoinSep "." ((i :: is_).map PreId.toStr)) := by
        simp [SemVer.toStr]
      have hdata : (SemVer.toStr ⟨M, m, p, i :: is_⟩).data =
          ((natToStr M).data ++ '.' :: ((natToStr m).data ++ '.' :: (natToStr p).data)) ++
            '-' :: (strJoinSep "." ((i :: is_).map PreId.toStr)).data := by
        rw [htos]
        simp [String.data_append]
      rw [parseVersion, hdata]
      have htw := takeWhile_all_stop (fun c => c ≠ '-') _ hMd '-'
        (strJoinSep "." ((i :: is_).map PreId.toStr)).data (by simp)
      rw [htw.1, htw.2, splitOnCharCs_main M m p]
      simp only [parseNatCs_natToStr, Option.some_bind]
      have hjoin : splitOnCharCs '.'
          (strJoinSep "." ((i :: is_).map PreId.toStr)).data =
          ((i :: is_).map PreId.toStr).map String.data := by
        apply splitOnCharCs_join
        · simp
        · intro s hs
          obtain ⟨j, hj, rfl⟩ := List.mem_map.mp hs
          cases j with
          | num n => exact fun hc => (natToStr_chars n _ hc).2.1 rfl
          | str t =>
              have := hpre _ hj
              obtain ⟨_, _, h3, _⟩ := this
              exact h3
      rw [hjoin, mapM_parsePreId (i :: is_) hpre]
      rfl

/-! ### C3 development: orderings swap, set rebuild, serde layer -/

lemma natCmp_swap (a b : Nat) : compare b a = (compare a b).swap := by
  rcases Nat.lt_trichotomy a b with h | h | h
  · simp [Nat.compare_eq_lt.mpr h, Nat.compare_eq_gt.mpr h]; rfl
  · simp [h, Nat.compare_eq_eq.mpr rfl]; rfl
  · simp [Nat.compare_eq_gt.mpr h, Nat.compare_eq_lt.mpr h]; rfl

lemma charCmp_swap (a b : Char) : charCmp b a = (charCmp a b).swap :=
  natCmp_swap a.toNat b.toNat

lemma listCmp_swap {α : Type} (cmp : α → α → Ordering)
    (hsw : ∀ a b, cmp b a = (cmp a b).swap) :
    ∀ l1 l2 : List α, listCmp cmp l2 l1 = (listCmp cmp l1 l2).swap
  | [], [] => rfl
  | [], _ :: _ => rfl
  | _ :: _, [] => rfl
  | a :: as_, b :: bs => by
      simp only [listCmp]
      rw [hsw a b]
      cases h : cmp a b with
      | eq => simpa [Ordering.swap] using listCmp_swap cmp hsw as_ bs
      | lt => simp [Ordering.swap]
      | gt => simp [Ordering.swap]

lemma strCmp_swap (a b : String) : strCmp b a = (strCmp a b).swap :=
  listCmp_swap charCmp charCmp_swap a.data b.data

lemma preIdCmp_swap (a b : PreId) : PreId.cmp b a = (PreId.cmp a b).swap := by
  cases a with
  | num n =>
      cases b with
      | num m => exact natCmp_swap n m
      | str t => rfl
  | str s =>
      cases b with
      | num m => rfl
      | str t => exact strCmp_swap s t

lemma preListCmp_swap : ∀ l1 l2 : List PreId, preListCmp l2 l1 = (preListCmp l1 l2).swap
  | [], [] => rfl
  | [], _ :: _ => rfl
  | _ :: _, [] => rfl
  | a :: as_, b :: bs => by
      simp only [preListCmp]
      rw [preIdCmp_swap a b]
      cases h : PreId.cmp a b with
      | eq => simpa [Ordering.swap] using preListCmp_swap as_ bs
      | lt => simp [Ordering.swap]
      | gt => simp [Ordering.swap]

lemma semverCmp_swap (a b : SemVer) : SemVer.cmp b a = (SemVer.cmp a b).swap := by
  obtain ⟨aM, am, ap, apre⟩ := a
  obtain ⟨bM, bm, bp, bpre⟩ := b
  simp only [SemVer.cmp]
  rw [natCmp_swap aM bM]
  cases compare aM bM with
  | lt => rfl
  | gt => rfl
  | eq =>
      simp only [Ordering.swap]
      rw [natCmp_swap am bm]
      cases compare am bm with
      | lt => rfl
      | gt => rfl
      | eq =>
          simp only [Ordering.swap]
          rw [natCmp_swap ap bp]
          cases compare ap bp with
          | lt => rfl
          | gt => rfl
          | eq =>
              simp only [Ordering.swap]
              cases apre with
              | nil =>
                  cases bpre with
                  | nil => rfl
                  | cons y ys => rfl
              | cons x xs =>
                  cases bpre with
                  | nil => rfl
                  | cons y ys => exact preListCmp_swap (x :: xs) (y :: ys)

namespace Depinfo

lemma optCmp_swap {α : Type} (cmp : α → α → Ordering)
    (hsw : ∀ a b, cmp b a = (cmp a b).swap) :
    ∀ o1 o2 : Option α, optCmp cmp o2 o1 = (optCmp cmp o1 o2).swap
  | none, none => rfl
  | none, some _ => rfl
  | some _, none => rfl
  | some a, some b => hsw a b

lemma dependencyCmp_swap (a b : Dependency) :
    Dependency.cmp b a = (Dependency.cmp a b).swap := by
  simp only [Dependency.cmp]
  rw [strCmp_swap a.crateName b.crateName]
  cases strCmp a.crateName b.crateName with
  | lt => rfl
  | gt => rfl
  | eq =>
      simp only [Ordering.swap]
      rw [optCmp_swap SemVer.cmp semverCmp_swap a.version b.version]
      cases optCmp SemVer.cmp a.version b.version with
      | lt => rfl
      | gt => rfl
      | eq =>
          simp only [Ordering.swap]
          exact optCmp_swap strCmp strCmp_swap a.libNameOpt b.libNameOpt

lemma btreeInsert_append (x : Dependency) :
    ∀ pre : List Dependency, (∀ y ∈ pre, Dependency.cmp y x = .lt) →
      btreeInsert Dependency.cmp x pre = pre ++ [x]
  | [], _ => rfl
  | y :: ys, h => by
      have hy : Dependency.cmp y x = .lt := h y (by simp)
      have hxy : Dependency.cmp x y = .gt := by
        rw [dependencyCmp_swap y x, hy]; rfl
      simp only [btreeInsert, hxy]
      rw [btreeInsert_append x ys (fun z hz => h z (by simp [hz]))]
      rfl

lemma foldl_btreeInsert_pairwise :
    ∀ post pre : List Dependency,
      List.Pairwise (fun a b => Dependency.cmp a b = .lt) (pre ++ post) →
      post.foldl (fun s dep => btreeInsert Dependency.cmp dep s) pre = pre ++ post
  | [], pre, _ => by simp
  | x :: xs, pre, hp => by
      rw [List.foldl_cons]
      have hx : ∀ y ∈ pre, Dependency.cmp y x = .lt := fun y hy =>
        (List.pairwise_append.mp hp).2.2 y hy x (by simp)
      rw [btreeInsert_append x pre hx]
      have hp' : List.Pairwise (fun a b => Dependency.cmp a b = .lt)
          ((pre ++ [x]) ++ xs) := by
        rw [List.append_assoc]
        exact hp
      rw [foldl_btreeInsert_pairwise xs (pre ++ [x]) hp']
      simp

lemma WFL_of_forall : ∀ l : List Cbor.Value, (∀ v ∈ l, Cbor.WFV v) → Cbor.WFL l
  | [], _ => trivial
  | v :: vs, h =>
      ⟨h v (by simp), WFL_of_forall vs (fun x hx => h x (by simp [hx]))⟩

lemma hashCbor_WF (h : Blake3Hash) (hwf : hashWF h) : Cbor.WFV (hashCbor h) := by
  obtain ⟨hlen, hbytes⟩ := hwf
  have w : ∀ l : List Nat, l.length = 8 → (∀ b ∈ l, b < 256) →
      Cbor.beBytesToNat l < 2 ^ 64 := by
    intro l hl hb
    have := Cbor.beBytesToNat_lt l hb
    rw [hl] at this
    norm_num at this ⊢
    omega
  refine ⟨?_, ?_, ?_, ?_, ?_, trivial⟩
  · show (4 : Nat) < 2 ^ 64
    norm_num
  · exact w _ (by simp [hlen]) (fun b hb => hbytes b (List.take_subset _ _ hb))
  · exact w _ (by simp [hlen])
      (fun b hb => hbytes b (List.drop_subset _ _ (List.take_subset _ _ hb)))
  · exact w _ (by simp [hlen])
      (fun b hb => hbytes b (List.drop_subset _ _ (List.take_subset _ _ hb)))
  · exact w _ (by simp [hlen])
      (fun b hb => hbytes b (List.drop_subset _ _ (List.take_subset _ _ hb)))

lemma cborHash_hashCbor (h : Blake3Hash) (hwf : hashWF h) :
    cborHash (hashCbor h) = some h := by
  obtain ⟨hlen, hbytes⟩ := hwf
  have hb1 : ∀ b ∈ h.take 8, b < 256 := fun b hb => hbytes b (List.take_subset _ _ hb)
  have hb2 : ∀ b ∈ (h.drop 8).take 8, b < 256 := fun b hb =>
    hbytes b (List.drop_subset _ _ (List.take_subset _ _ hb))
  have hb3 : ∀ b ∈ (h.drop 16).take 8, b < 256 := fun b hb =>
    hbytes b (List.drop_subset _ _ (List.take_subset _ _ hb))
  have hb4 : ∀ b ∈ (h.drop 24).take 8, b < 256 := fun b hb =>
    hbytes b (List.drop_subset _ _ (List.take_subset _ _ hb))
  have hl1 : (h.take 8).length = 8 := by simp [hlen]
  have hl2 : ((h.drop 8).take 8).length = 8 := by simp [hlen]
  have hl3 : ((h.drop 16).take 8).length = 8 := by simp [hlen]
  have hl4 : ((h.drop 24).take 8).length = 8 := by simp [hlen]
  have hw : ∀ l : List Nat, l.length = 8 → (∀ b ∈ l, b < 256) →
      Cbor.beBytesToNat l < 2 ^ 64 ∧
        Cbor.natToBeBytes 8 (Cbor.beBytesToNat l) = l := by
    intro l hl hb
    constructor
    · have := Cbor.beBytesToNat_lt l hb
      rw [hl] at this
      norm_num at this ⊢
      omega
    · rw [← hl]
      exact Cbor.natToBeBytes_beBytesToNat l hb
  obtain ⟨hlt1, heq1⟩ := hw _ hl1 hb1
  obtain ⟨hlt2, heq2⟩ := hw _ hl2 hb2
  obtain ⟨hlt3, heq3⟩ := hw _ hl3 hb3
  obtain ⟨hlt4, heq4⟩ := hw _ hl4 hb4
  have htk : (h.drop 24).take 8 = h.drop 24 := by
    apply List.take_of_length_le
    simp [hlen]
  have hdecomp : h.take 8 ++ ((h.drop 8).take 8 ++
      ((h.drop 16).take 8 ++ (h.drop 24).take 8)) = h := by
    rw [htk]
    have e1 : (h.drop 8).drop 8 = h.drop 16 := by rw [List.drop_drop]
    have e2 : (h.drop 16).drop 8 = h.drop 24 := by rw [List.drop_drop]
    calc h.take 8 ++ ((h.drop 8).take 8 ++ ((h.drop 16).take 8 ++ h.drop 24))
        = h.take 8 ++ ((h.drop 8).take 8 ++
            ((h.drop 16).take 8 ++ (h.drop 16).drop 8)) := by rw [e2]
      _ = h.take 8 ++ ((h.drop 8).take 8 ++ h.drop 16) := by
            rw [List.take_append_drop]
      _ = h.take 8 ++ ((h.drop 8).take 8 ++ (h.drop 8).drop 8) := by rw [e1]
      _ = h.take 8 ++ h.drop 8 := by rw [List.take_append_drop]
      _ = h := List.take_append_drop 8 h
  simp only [hashCbor, hashToWords, List.map_cons, List.map_nil, cborHash,
    cborNatLt, hlt1, hlt2, hlt3, hlt4, if_pos, Option.some_bind,
    Option.bind_eq_bind, wordsToHash, heq1, heq2, heq3, heq4]
  congr 1
  simpa [List.append_assoc] using hdecomp

lemma cborVerOpt_verOptCbor : ∀ ov : Option SemVer,
    (match ov with | some v => v.WF | none => True) →
    cborVerOpt (verOptCbor ov) = some ov
  | none, _ => rfl
  | some v, h => by
      have hv : v.WF := h
      show cborVerOpt (.text v.toStr) = some (some v)
      simp [cborVerOpt, parseVersion_toStr v hv]

lemma cborDep_depCbor (d : Dependency) (hw : d.WF) : cborDep (depCbor d) = some d := by
  obtain ⟨name, ver, lib⟩ := d
  obtain ⟨h1, h2, h3⟩ := hw
  cases lib with
  | none =>
      have hvv : cborVerOpt (verOptCbor ver) = some ver := cborVerOpt_verOptCbor ver h3
      cases ver with
      | none => rfl
      | some v =>
          have hv : cborVerOpt (.text v.toStr) = some (some v) := hvv
          show cborDep (.arr [.text name, .text v.toStr]) = some ⟨name, some v, none⟩
          simp [cborDep, hv]
  | some l =>
      have hvv : cborVerOpt (verOptCbor ver) = some ver := cborVerOpt_verOptCbor ver h3
      cases ver with
      | none => rfl
      | some v =>
          have hv : cborVerOpt (.text v.toStr) = some (some v) := hvv
          show cborDep (.arr [.text name, .text v.toStr, .text l]) =
            some ⟨name, some v, some l⟩
          simp [cborDep, hv]

lemma mapM_cborDep : ∀ deps : List Dependency, (∀ d ∈ deps, d.WF) →
    (deps.map depCbor).mapM cborDep = some deps
  | [], _ => rfl
  | d :: ds, h => by
      simp only [List.map_cons, List.mapM_cons,
        cborDep_depCbor d (h d (by simp)),
        mapM_cborDep ds (fun x hx => h x (by simp [hx]))]
      rfl

lemma depCbor_WF (d : Dependency) (hw : d.WF) : Cbor.WFV (depCbor d) := by
  obtain ⟨name, ver, lib⟩ := d
  obtain ⟨h1, h2, h3⟩ := hw
  cases lib with
  | none =>
      cases ver with
      | none =>
          refine ⟨?_, h1, trivial, trivial⟩
          show (2 : Nat) < 2 ^ 64
          norm_num
      | some v =>
          have hv : SemVer.WF v := h3
          refine ⟨?_, h1, hv.2, trivial⟩
          show (2 : Nat) < 2 ^ 64
          norm_num
  | some l =>
      have hl : asciiTextWF l := h2
      cases ver with
      | none =>
          refine ⟨?_, h1, trivial, hl, trivial⟩
          show (3 : Nat) < 2 ^ 64
          norm_num
      | some v =>
          have hv : SemVer.WF v := h3
          refine ⟨?_, h1, hv.2, hl, trivial⟩
          show (3 : Nat) < 2 ^ 64
          norm_num

lemma toCborValue_WF (info : DependencyInfo) (h : info.WF) :
    Cbor.WFV (toCborValue info) := by
  obtain ⟨impl⟩ := info
  cases impl with
  | V1 i =>
      obtain ⟨mv, th, rh, deps⟩ := i
      obtain ⟨hm, ht, hr, hlen, hsort, hdeps⟩ := h
      have hm' : mv < 256 := hm
      have ht' : hashWF th := ht
      have hr' : hashWF rh := hr
      have hlen' : deps.length < 2 ^ 64 := hlen
      have hdeps' : ∀ d ∈ deps, d.WF := hdeps
      have hdval : Cbor.WFV (.arr (deps.map depCbor)) := by
        refine ⟨?_, ?_⟩
        · simpa using hlen'
        · apply WFL_of_forall
          intro v hv
          obtain ⟨d, hd, rfl⟩ := List.mem_map.mp hv
          exact depCbor_WF d (hdeps' d hd)
      refine ⟨?_, ?_, ⟨?_, ?_, ?_, ?_, ?_, ?_, ?_, ?_, ?_, trivial⟩, trivial⟩
      · show (2 : Nat) < 2 ^ 64
        norm_num
      · show (1 : Nat) < 2 ^ 64
        norm_num
      · show (4 : Nat) < 2 ^ 64
        norm_num
      · show asciiTextWF "m"
        decide
      · show mv < 2 ^ 64
        have : (256 : Nat) < 2 ^ 64 := by norm_num
        omega
      · show asciiTextWF "t"
        decide
      · exact hashCbor_WF _ ht'
      · show asciiTextWF "r"
        decide
      · exact hashCbor_WF _ hr'
      · show asciiTextWF "d"
        decide
      · exact hdval

lemma fromCborValue_toCborValue (info : DependencyInfo) (h : info.WF) :
    fromCborValue (toCborValue info) = some info := by
  obtain ⟨impl⟩ := info
  cases impl with
  | V1 i =>
      obtain ⟨mv, th, rh, deps⟩ := i
      obtain ⟨hm, ht, hr, hlen, hsort, hdeps⟩ := h
      have hm' : mv < 256 := hm
      have ht' : hashWF th := ht
      have hr' : hashWF rh := hr
      have hsort' : List.Pairwise (fun a b => Dependency.cmp a b = .lt) deps := hsort
      have hdeps' : ∀ d ∈ deps, d.WF := hdeps
      have e1 : mapField [(.text "m", Cbor.Value.nat mv), (.text "t", hashCbor th),
          (.text "r", hashCbor rh), (.text "d", .arr (deps.map depCbor))] "m" =
          some (.nat mv) := rfl
      have e2 : mapField [(.text "m", Cbor.Value.nat mv), (.text "t", hashCbor th),
          (.text "r", hashCbor rh), (.text "d", .arr (deps.map depCbor))] "t" =
          some (hashCbor th) := rfl
      have e3 : mapField [(.text "m", Cbor.Value.nat mv), (.text "t", hashCbor th),
          (.text "r", hashCbor rh), (.text "d", .arr (deps.map depCbor))] "r" =
          some (hashCbor rh) := rfl
      have e4 : mapField [(.text "m", Cbor.Value.nat mv), (.text "t", hashCbor th),
          (.text "r", hashCbor rh), (.text "d", .arr (deps.map depCbor))] "d" =
          some (.arr (deps.map depCbor)) := rfl
      have c1 : cborNatLt (2 ^ 8) (.nat mv) = some mv := by
        have h28 : (2 : Nat) ^ 8 = 256 := by norm_num
        rw [h28]
        simp [cborNatLt, hm']
      have c2 : cborHash (hashCbor th) = some th := cborHash_hashCbor th ht'
      have c3 : cborHash (hashCbor rh) = some rh := cborHash_hashCbor rh hr'
      have c4 : (deps.map depCbor).mapM cborDep = some deps := mapM_cborDep deps hdeps'
      have c5 : deps.foldl (fun s dep => btreeInsert Dependency.cmp dep s) [] = deps :=
        foldl_btreeInsert_pairwise deps [] (by simpa using hsort')
      show fromCborValue (.arr [.nat 1, .map
        [(.text "m", Cbor.Value.nat mv), (.text "t", hashCbor th),
          (.text "r", hashCbor rh), (.text "d", .arr (deps.map depCbor))]]) =
        some ⟨.V1 ⟨mv, th, rh, deps⟩⟩
      simp only [fromCborValue, Option.bind_eq_bind, Option.some_bind,
        e1, e2, e3, e4, c1, c2, c3, c4, c5]

end Depinfo

/-- C3: encoding a `DependencyInfo` and decoding the result reproduces the
record exactly, so `check_input` and `check_dependency` answer identically
on the decoded record and the original, for every argument. -/
theorem c3_decode_encode_roundtrip (info : Depinfo.DependencyInfo)
    (h : info.WF) :
    Depinfo.DependencyInfo.decode (Depinfo.DependencyInfo.encode info) =
      some info ∧
    ∀ info', Depinfo.DependencyInfo.decode (Depinfo.DependencyInfo.encode info) =
        some info' →
      (∀ blake3 tmpl rdoc, Depinfo.DependencyInfo.checkInput blake3 info' tmpl rdoc =
        Depinfo.DependencyInfo.checkInput blake3 info tmpl rdoc) ∧
      (∀ nm ver lib am, info'.checkDependency nm ver lib am =
        info.checkDependency nm ver lib am) := by
  have hwfv := Depinfo.toCborValue_WF info h
  have hbytes := Cbor.encodeValue_bytes_lt _ hwfv
  have hdec := Cbor.decode_encode_value _ hwfv
  have hb64 : B64.decode (B64.encode (Cbor.encodeValue (Depinfo.toCborValue info))) =
      some (Cbor.encodeValue (Depinfo.toCborValue info)) :=
    B64.decodeChars_encodeChars _ hbytes
  have hfrom := Depinfo.fromCborValue_toCborValue info h
  have hmain : Depinfo.DependencyInfo.decode (Depinfo.DependencyInfo.encode info) =
      some info := by
    simp only [Depinfo.DependencyInfo.decode, Depinfo.DependencyInfo.encode,
      Option.bind_eq_bind, hb64, Option.some_bind, hdec, hfrom]
    simp
  refine ⟨hmain, fun info' h' => ?_⟩
  rw [hmain] at h'
  injection h' with h'
  subst h'
  exact ⟨fun _ _ _ => rfl, fun _ _ _ _ => rfl⟩

/-- C3 witness: the round trip at a concrete two-dependency record with a
renamed lib, a pre-release version and an absent version. -/
theorem c3_roundtrip_witness :
    infoC3.WF ∧
    (Depinfo.DependencyInfo.decode (Depinfo.DependencyInfo.encode infoC3) =
      some infoC3 ∧
    ∀ info', Depinfo.DependencyInfo.decode (Depinfo.DependencyInfo.encode infoC3) =
        some info' →
      (∀ blake3 tmpl rdoc, Depinfo.DependencyInfo.checkInput blake3 info' tmpl rdoc =
        Depinfo.DependencyInfo.checkInput blake3 infoC3 tmpl rdoc) ∧
      (∀ nm ver lib am, info'.checkDependency nm ver lib am =
        infoC3.checkDependency nm ver lib am)) :=
  ⟨by decide, c3_decode_encode_roundtrip infoC3 (by decide)⟩

namespace Input

lemma scopeLookup_push (m : ScopeScope) (k : String) (v : LinkType × String) :
    scopeLookup (scopeEntryPush k v m) k =
      some (v :: (scopeLookup m k).getD []) := by
  induction m with
  | nil => simp [scopeLookup, scopeEntryPush]
  | cons e rest ih =>
    obtain ⟨k', l⟩ := e
    by_cases h : k = k'
    · subst h
      simp [scopeLookup, scopeEntryPush]
    · simp only [scopeEntryPush, if_neg h]
      simp only [scopeLookup, List.find?] at ih ⊢
      have h' : (decide (k' = k)) = false := by
        simp [Ne.symm h]
      simp [h', ih]

lemma scopeLookup_insert (s : Scope) (k : String) (ty : LinkType) (p : String) :
    scopeLookup (s.insert k ty p).scope k =
      some ((ty, p) :: (scopeLookup s.scope k).getD []) :=
  scopeLookup_push s.scope k (ty, p)

/-- C4: a later `Scope::insert` under the same identifier pushes the new
candidate to the front while keeping the earlier ones, and `resolve` returns
the canonical path of that front (most recently inserted) candidate. -/
theorem c4_shadowing_front
    (s : Scope) (crateName k : String) (ty₁ ty₂ : LinkType) (p₁ p₂ : String)
    (hsplit : strSplitSub k "::" = [k])
    (hcrate : k ≠ "crate")
    (habs : strStartsWith k "::" = false)
    (hp : strStartsWith p₂ "::" = true) :
    scopeLookup ((s.insert k ty₁ p₁).insert k ty₂ p₂).scope k =
      some ((ty₂, p₂) :: (ty₁, p₁) :: (scopeLookup s.scope k).getD []) ∧
    ∀ fuel, ((s.insert k ty₁ p₁).insert k ty₂ p₂).resolveFuel crateName (fuel + 2) k = some p₂ := by
  have hlook := scopeLookup_insert (s.insert k ty₁ p₁) k ty₂ p₂
  rw [scopeLookup_insert s k ty₁ p₁] at hlook
  simp only [Option.getD_some] at hlook
  refine ⟨hlook, fun fuel => ?_⟩
  show Scope.resolveFuel _ _ (fuel + 1 + 1) _ = _
  rw [Scope.resolveFuel]
  rw [habs]
  simp only [Bool.false_eq_true, if_false, hsplit]
  simp only [if_neg hcrate, hlook]
  show Scope.resolveFuel _ _ (fuel + 1) (strJoinSep "::" [p₂]) = some p₂
  rw [Scope.resolveFuel]
  simp [strJoinSep, hp]

end Input

namespace Depinfo

lemma mapLookup_insertReplace (k k' : String) (v : β) (m : List (String × β)) :
    mapLookup k (mapInsertReplace k' v m) =
      if k = k' then some v else mapLookup k m := by
  induction m with
  | nil => by_cases h : k = k' <;> simp [mapLookup, mapInsertReplace, h]
  | cons e rest ih =>
    obtain ⟨k'', v''⟩ := e
    by_cases h : k' = k''
    · subst h
      by_cases h2 : k = k' <;> simp [mapLookup, mapInsertReplace, h2]
    · by_cases h2 : k = k''
      · subst h2
        simp [mapInsertReplace, if_neg h, mapLookup, Ne.symm h]
      · simp [mapInsertReplace, if_neg h, mapLookup, h2, ih]

lemma foldl_dependencies_view (l : List Dependency) (m₀ : List (String × (Option SemVer × String))) (k : String) :
    mapLookup k (l.foldl (fun m d => mapInsertReplace d.crateName (d.version, d.libName) m) m₀) =
      match (l.filter (fun d => d.crateName = k)).getLast? with
      | some d => some (d.version, d.libName)
      | none => mapLookup k m₀ := by
  induction l generalizing m₀ with
  | nil => simp
  | cons d rest ih =>
    simp only [List.foldl_cons, ih, List.filter_cons]
    by_cases hd : d.crateName = k
    · have hfil : rest.filter (fun d => d.crateName = k) =
          (rest.filter (fun d => d.crateName = k)) := rfl
      cases hlast : (rest.filter (fun d => d.crateName = k)).getLast? with
      | some d' => simp [hd, List.getLast?_cons, hlast]
      | none =>
        have hnil : rest.filter (fun d => d.crateName = k) = [] := by
          cases h : rest.filter (fun d => d.crateName = k) with
          | nil => rfl
          | cons a b => rw [h] at hlast; simp [List.getLast?] at hlast
        simp [hd, List.getLast?_cons, hlast, hnil, mapLookup_insertReplace]
    · cases hlast : (rest.filter (fun d => d.crateName = k)).getLast? with
      | some d' => simp [hd, hlast]
      | none =>
        simp only [hlast, mapLookup_insertReplace]
        rw [if_neg (fun h => hd h.symm)]
        simp [hd, hlast]

/-- C6 (amended): the `dependencies()` view used by the checks keeps at most
one entry per published name: the one the last (greatest, by the derived
`Dependency` ordering) matching element of the stored set provides.  The
underlying `BTreeSet` itself may hold several entries per name. -/
theorem c6_dependencies_view_amended (info : DependencyInfo) (k : String) :
    mapLookup k info.dependenciesMap =
      ((info.v1.dependencies.filter (fun d => d.crateName = k)).getLast?).map
        (fun d => (d.version, d.libName)) := by
  unfold DependencyInfo.dependenciesMap
  rw [foldl_dependencies_view]
  cases (info.v1.dependencies.filter (fun d => d.crateName = k)).getLast? <;>
    simp [mapLookup]

/-- C2 (amended): for a dependency present in the stored record under a
matching lib name, `check_dependency` succeeds exactly when the stored
resolved version is not below the requirement's base version; in particular
a stored version satisfying the requirement never fails the check, but the
requirement's upper bound is never consulted. -/
theorem c2_dependency_check_amended (info : DependencyInfo) (crateName libName : String)
    (req : VersionReq) (stored : SemVer) (am : Bool)
    (hpresent : mapLookup crateName info.dependenciesMap = some (some stored, libName)) :
    (req.matches stored = true →
      info.checkDependency crateName (some req.base) libName am = true) ∧
    info.checkDependency crateName (some req.base) libName am = !(SemVer.lt stored req.base) := by
  have hmain : info.checkDependency crateName (some req.base) libName am = !(SemVer.lt stored req.base) := by
    unfold DependencyInfo.checkDependency
    rw [hpresent]
    simp only [ne_eq, not_true_eq_false, if_false]
    cases h : SemVer.lt stored req.base <;> simp [h]
  refine ⟨fun hm => ?_, hmain⟩
  rw [hmain]
  unfold VersionReq.matches at hm
  rcases Bool.and_eq_true_iff.mp hm with ⟨h1, _⟩
  simp only [Bool.not_eq_true'] at h1
  simp [h1]

end Depinfo

/-- C2 counterexample: the stored version `2.0.0` is excluded by the
manifest requirement `^1.0.0`, the dependency is present with a matching
lib name and no earlier outcome fires, yet `check_up2date` answers
up-to-date instead of the incompatible-version outcome. -/
theorem c2_incompatibility_missed :
    reqC2.matches (semver 2 0 0) = false ∧
    Depinfo.mapLookup "a" infoC2.dependenciesMap = some (some (semver 2 0 0), "a") ∧
    Verify.checkUp2date collabStub inputC2 "TMPL" [] bufC2 = .ok .upToDate := by
  decide

/-- C6 counterexample: two `add_dependency` calls for crate `a` at versions
`1.0.0` and `2.0.0` leave two elements named `a` in the stored set, so the
accumulator itself does not keep at most one entry per name. -/
theorem c6_duplicate_entries :
    (((Depinfo.DependencyInfo.new blake3Stub "T" "R").addDependency
        "a" (some (semver 1 0 0)) "a").addDependency
        "a" (some (semver 2 0 0)) "a").v1.dependencies.map
      Depinfo.Dependency.crateName = ["a", "a"] := by
  decide

lemma strStartsWith_append (v x p : String) (h : strStartsWith v p = true) :
    strStartsWith (v ++ x) p = true := by
  simp only [strStartsWith, List.isPrefixOf_iff_prefix] at h ⊢
  have : (v ++ x).data = v.data ++ x.data := String.data_append v x
  rw [this]
  exact h.trans (List.prefix_append _ _)

lemma strStartsWith_joinSep (sep p v : String) (rest : List String)
    (h : strStartsWith v p = true) :
    strStartsWith (strJoinSep sep (v :: rest)) p = true := by
  cases rest with
  | nil => simpa [strJoinSep] using h
  | cons r rs =>
    show strStartsWith (v ++ sep ++ strJoinSep sep (r :: rs)) p = true
    exact strStartsWith_append _ _ _ (strStartsWith_append _ _ _ h)

namespace Input

lemma resolveFuel_mono (s : Scope) (cn : String) :
    ∀ n path r, s.resolveFuel cn n path = some r →
      s.resolveFuel cn (n + 1) path = some r := by
  intro n
  induction n with
  | zero => intro path r h; simp [Scope.resolveFuel] at h
  | succ n ih =>
    intro path r h
    rw [Scope.resolveFuel] at h ⊢
    by_cases hs : strStartsWith path "::" = true
    · simpa [hs] using h
    · simp only [hs, Bool.false_eq_true, if_false] at h ⊢
      cases hsplit : strSplitSub path "::" with
      | nil => simpa [hsplit] using h
      | cons s0 rest =>
        simp only [hsplit] at h ⊢
        cases hlook : scopeLookup s.scope (if s0 = "crate" then cn else s0) with
        | none => simpa [hlook] using h
        | some l =>
          cases l with
          | nil => simpa [hlook] using h
          | cons e t =>
            simp only [hlook] at h ⊢
            exact ih _ _ h

/-- C8 (amended): whenever every value the scope table stores is an
absolute path (starts with `::`), `resolve` terminates within two
substitution steps on every raw path. -/
theorem c8_resolve_terminates_amended (s : Scope) (cn : String)
    (habs : ∀ ent ∈ s.scope, ∀ v ∈ ent.2, strStartsWith v.2 "::" = true) :
    ∀ path, (s.resolveFuel cn 2 path).isSome = true := by
  have habs2 : ∀ k l, scopeLookup s.scope k = some l →
      ∀ e ∈ l, strStartsWith e.2 "::" = true := by
    intro k l hl e he
    unfold scopeLookup at hl
    cases hf : s.scope.find? (fun ent => ent.1 = k) with
    | none => rw [hf] at hl; simp at hl
    | some ent =>
      rw [hf] at hl
      simp only [Option.map] at hl
      injection hl with hl
      subst hl
      exact habs ent (List.mem_of_find?_eq_some hf) e he
  intro path
  show (s.resolveFuel cn (1 + 1) path).isSome = true
  rw [Scope.resolveFuel]
  by_cases hs : strStartsWith path "::" = true
  · simp [hs]
  · simp only [hs, Bool.false_eq_true, if_false]
    cases hsplit : strSplitSub path "::" with
    | nil => simp
    | cons s0 rest =>
      cases hlook : scopeLookup s.scope (if s0 = "crate" then cn else s0) with
      | none => simp [hlook]
      | some l =>
        cases l with
        | nil => simp [hlook]
        | cons e t =>
          simp only [hlook]
          have habse : strStartsWith e.2 "::" = true :=
            habs2 _ _ hlook e (List.mem_cons_self _ _)
          rw [Scope.resolveFuel]
          rw [strStartsWith_joinSep "::" "::" e.2 rest habse]
          simp

end Input

lemma c8_step (n : Nat) :
    scopeC8.resolveFuel "mycrate" (n + 1) "a" = scopeC8.resolveFuel "mycrate" n "a" := by
  rw [Input.Scope.resolveFuel]
  rw [(by decide : strStartsWith "a" "::" = false)]
  rw [(by decide : strSplitSub "a" "::" = ["a"])]
  simp only [Bool.false_eq_true, if_false]
  rw [if_neg (by decide : ¬ ("a" = "crate"))]
  rw [(by decide : Input.scopeLookup scopeC8.scope "a" = some [(.useK, "a")])]
  rfl

/-- C8 counterexample: the scope built from `use a as a;` maps `a` to
itself, and resolution of `a` returns no answer at any fuel — the model's
rendering of the Rust recursion looping forever. -/
theorem c8_self_import_diverges :
    resolveDiverges scopeC8 "mycrate" "a" := by
  intro fuel
  induction fuel with
  | zero => rfl
  | succ n ih => rw [c8_step, ih]

/-- C9: `emit` writes nothing to its output stream when it returns an
error (malformed repository URL or template substitution failure), and
performs exactly one write — the whole rendered document — when it
succeeds. -/
theorem c9_single_final_write (c : Output.Collab) (input : Input.InputFile) (template : String)
    (events : List Output.Event) :
    ((Output.emit c input template events).2.isSome = true →
      (Output.emit c input template events).1 = []) ∧
    ((Output.emit c input template events).2 = none →
      ∃ s, (Output.emit c input template events).1 = [s]) := by
  unfold Output.emit
  cases hrun : Output.runEvents Output.initState events with
  | error e => simp
  | ok st =>
    simp only
    cases hrepo : input.repository with
    | none =>
      simp only
      cases htera : c.tera template _ with
      | error e => simp
      | ok str => simp
    | some repo =>
      simp only
      cases hurl : c.urlHost repo with
      | none => simp
      | some h =>
        cases h with
        | none => simp
        | some hst =>
          simp only
          cases htera : c.tera template _ with
          | error e => simp
          | ok str => simp

/-- C7 (code bug evidence): the event stream of a fenced code block tagged
`ignore` containing the line `# You cannot see me` renders with that line
removed and its sibling kept, although blocks tagged to skip processing
are documented to keep such lines. -/
theorem c7_hidden_line_filtered_in_ignore :
    (Output.runEvents Output.initState eventsC7).map
      (fun st => (strContainsSub st.readme "You cannot see me",
                  strContainsSub st.readme "visible")) = .ok (false, true) := by
  decide

/-- C5 counterexample: `build_link` on the resolved path `std::u8::MAX`
with a constant kind emits the deep link `.../std/u8/constant.MAX.html`,
not a search-style URL. -/
theorem c5_std_deep_link :
    (linksC5.buildLink pathC5 (some .constK) inputStub).2 =
      "https://doc.rust-lang.org/stable/std/u8/constant.MAX.html" ∧
    (linksC5.buildLink pathC5 (some .constK) inputStub).2 ≠
      "https://doc.rust-lang.org/stable/std/?search=u8::MAX" := by
  decide

lemma strStartsWith_refl (p : String) : strStartsWith p p = true := by
  simp [strStartsWith, List.isPrefixOf_iff_prefix]

/-- C5 (amended): for a path whose first segment names the standard
library, `build_link` registers no dependency and builds a URL under the
standard-library documentation host; a search-style URL results exactly
when no page template applies to the link kind and segments remain. -/
theorem c5_std_link_amended (links : Links.Links) (path : Links.SynPath)
    (lt : Option Input.LinkType) (input : Input.InputFile)
    (hfirst : path.segments.headD "" ∈ ["alloc", "core", "proc_macro", "std", "test"]) :
    (links.buildLink path lt input).1 = links ∧
    strStartsWith (links.buildLink path lt input).2
      ("https://doc.rust-lang.org/stable/" ++ path.segments.headD "") = true ∧
    (Links.pageTemplate lt = none →
      ∀ segs, (path.segments.drop 1).filter (fun s => s ≠ "crate") = segs →
      segs ≠ [] →
      (links.buildLink path lt input).2 =
        "https://doc.rust-lang.org/stable/" ++ path.segments.headD "" ++
          "/?search=" ++ strJoinSep "::" segs) := by
  obtain ⟨lc, segments⟩ := path
  cases segments with
  | nil =>
    simp only [List.headD_nil] at hfirst
    exact absurd hfirst (by decide)
  | cons first restSegs =>
  simp only [List.headD_cons] at hfirst ⊢
  have hncS : (if (first = "crate" ∨ first = "self") ∧ ¬ lc = true then
      strReplaceChar input.crateName '-' '_' else first) = first := by
    rw [if_neg]
    rintro ⟨hor, _⟩
    rcases hor with h | h <;> rw [h] at hfirst <;> exact absurd hfirst (by decide)
  show (Links.Links.buildLink links ⟨lc, first :: restSegs⟩ lt input).1 = links ∧ _ ∧ _
  unfold Links.Links.buildLink
  simp only [List.headD_cons, List.drop_succ_cons, List.drop_zero, hncS, if_pos hfirst]
  cases hlast : (restSegs.filter (fun s => s ≠ "crate")).getLast? with
  | none =>
    refine ⟨rfl, strStartsWith_refl _, ?_⟩
    intro _ segs hsegs hne
    rw [hsegs] at hlast
    rw [List.getLast?_eq_getLast segs hne] at hlast
    simp at hlast
  | some last =>
    refine ⟨?_, ?_, ?_⟩
    · cases hpt : Links.pageTemplate lt with
      | none => rfl
      | some page => by_cases hm : page = "mod" <;> simp [hm]
    · cases hpt : Links.pageTemplate lt with
      | none =>
        simp only [hpt]
        repeat first | exact strStartsWith_refl _ | apply strStartsWith_append
      | some page =>
        by_cases hm : page = "mod" <;> simp only [hpt, hm] <;>
          (repeat first | exact strStartsWith_refl _ | apply strStartsWith_append)
    · intro hpt segs hsegs hne
      simp only [hpt]
      rw [hsegs] at hlast
      have hsplit : segs.dropLast ++ [last] = segs := by
        have h1 := List.getLast?_eq_getLast segs hne
        rw [h1, Option.some_inj] at hlast
        rw [← hlast]
        exact List.dropLast_append_getLast hne
      rw [hsegs, ← hsplit]
      rw [List.dropLast_concat]

lemma find?_append_none {α : Type} (p : α → Bool) (l₁ l₂ : List α)
    (h : l₁.find? p = none) : (l₁ ++ l₂).find? p = l₂.find? p := by
  induction l₁ with
  | nil => simp
  | cons x xs ih =>
    cases hp : p x with
    | true => simp [List.find?, hp] at h
    | false =>
      simp only [List.find?, hp] at h
      simp only [List.cons_append, List.find?, hp]
      exact ih h

namespace Verify

/-- Helper: on a document containing the marker, `check_up2date` reduces to
the decode/outdated/input/dependency cascade on the token after the marker. -/
lemma checkUp2date_marker (c : Output.Collab) (input : Input.InputFile)
    (template : String) (events : List Output.Event) (checkBuf : String)
    (idx : Nat) (hmarker : strFindSub checkBuf searchKey = some idx) :
    checkUp2date c input template events checkBuf =
      .ok (match Depinfo.DependencyInfo.decode (markerToken checkBuf idx) with
        | none => .invalidDepInfo
        | some depinfo =>
          if depinfo.checkOutdated then .outdatedMarkdown
          else if !depinfo.checkInput c.blake3 template input.rustdoc then .inputChanged
          else
            match input.dependencies.find? (fun e =>
              !depinfo.checkDependency e.2.crateName (some e.2.req.base) e.1 true) with
            | some e => .incompatibleVersion e.2.crateName
            | none => .upToDate) := by
  have hstep : checkUp2date c input template events checkBuf =
      match Depinfo.DependencyInfo.decode (markerToken checkBuf idx) with
      | none => .ok .invalidDepInfo
      | some depinfo =>
        if depinfo.checkOutdated then .ok .outdatedMarkdown
        else if !depinfo.checkInput c.blake3 template input.rustdoc then
          .ok .inputChanged
        else
          match input.dependencies.find? (fun e =>
            !depinfo.checkDependency e.2.crateName (some e.2.req.base) e.1 true) with
          | some e => .ok (.incompatibleVersion e.2.crateName)
          | none => .ok .upToDate := by
    unfold checkUp2date
    rw [hmarker]
  rw [hstep]
  cases hdec : Depinfo.DependencyInfo.decode (markerToken checkBuf idx) with
  | none => rfl
  | some depinfo =>
    simp only
    by_cases ho : depinfo.checkOutdated = true
    · simp [ho]
    · simp only [Bool.not_eq_true] at ho
      simp only [ho, Bool.false_eq_true, if_false]
      by_cases hi : depinfo.checkInput c.blake3 template input.rustdoc = true
      · simp only [hi, Bool.not_true, Bool.false_eq_true, if_false]
        cases input.dependencies.find? (fun e =>
            !depinfo.checkDependency e.2.crateName (some e.2.req.base) e.1 true) <;> rfl
      · simp only [Bool.not_eq_true] at hi
        simp [hi]

lemma checkOutdated_iff (info : Depinfo.DependencyInfo) :
    info.checkOutdated = true ↔
      info.v1.markdownVersion ≠ Depinfo.markdownVersionCurrent := by
  simp [Depinfo.DependencyInfo.checkOutdated]

lemma checkInput_iff (blake3 : String → Depinfo.Blake3Hash)
    (info : Depinfo.DependencyInfo) (template rustdoc : String) :
    info.checkInput blake3 template rustdoc = true ↔
      (info.v1.templateHash = blake3 template ∧
       info.v1.rustdocHash = blake3 rustdoc) := by
  simp [Depinfo.DependencyInfo.checkInput]

/-- C1: on an existing document containing the dependency-info marker,
`check_up2date` settles, in order: decode failure gives invalid-info; a
stored markdown version differing from the generator's gives outdated; a
hash mismatch gives input-changed; the first failing manifest dependency
gives incompatible-version naming it; otherwise up-to-date.  No other
outcome is reachable on that path. -/
theorem c1_check_up2date_order (c : Output.Collab) (input : Input.InputFile)
    (template : String) (events : List Output.Event) (checkBuf : String)
    (idx : Nat) (hmarker : strFindSub checkBuf searchKey = some idx) :
    (Depinfo.DependencyInfo.decode (markerToken checkBuf idx) = none →
      checkUp2date c input template events checkBuf = .ok .invalidDepInfo) ∧
    (∀ info, Depinfo.DependencyInfo.decode (markerToken checkBuf idx) = some info →
      info.v1.markdownVersion ≠ Depinfo.markdownVersionCurrent →
      checkUp2date c input template events checkBuf = .ok .outdatedMarkdown) ∧
    (∀ info, Depinfo.DependencyInfo.decode (markerToken checkBuf idx) = some info →
      info.v1.markdownVersion = Depinfo.markdownVersionCurrent →
      (info.v1.templateHash ≠ c.blake3 template ∨
       info.v1.rustdocHash ≠ c.blake3 input.rustdoc) →
      checkUp2date c input template events checkBuf = .ok .inputChanged) ∧
    (∀ info pre lib d post,
      Depinfo.DependencyInfo.decode (markerToken checkBuf idx) = some info →
      info.v1.markdownVersion = Depinfo.markdownVersionCurrent →
      info.v1.templateHash = c.blake3 template →
      info.v1.rustdocHash = c.blake3 input.rustdoc →
      input.dependencies = pre ++ (lib, d) :: post →
      (∀ e ∈ pre, info.checkDependency e.2.crateName (some e.2.req.base) e.1 true = true) →
      info.checkDependency d.crateName (some d.req.base) lib true = false →
      checkUp2date c input template events checkBuf = .ok (.incompatibleVersion d.crateName)) ∧
    (∀ info, Depinfo.DependencyInfo.decode (markerToken checkBuf idx) = some info →
      info.v1.markdownVersion = Depinfo.markdownVersionCurrent →
      info.v1.templateHash = c.blake3 template →
      info.v1.rustdocHash = c.blake3 input.rustdoc →
      (∀ e ∈ input.dependencies,
        info.checkDependency e.2.crateName (some e.2.req.base) e.1 true = true) →
      checkUp2date c input template events checkBuf = .ok .upToDate) ∧
    (checkUp2date c input template events checkBuf ≠ .ok .outputChanged ∧
     ∀ e, checkUp2date c input template events checkBuf ≠ .error e) := by
  rw [checkUp2date_marker c input template events checkBuf idx hmarker]
  refine ⟨?_, ?_, ?_, ?_, ?_, ?_, ?_⟩
  · intro h; rw [h]
  · intro info h hmv
    rw [h]
    simp only
    rw [if_pos ((checkOutdated_iff info).mpr hmv)]
  · intro info h hmv hhash
    rw [h]
    simp only
    rw [if_neg (fun hc => ((checkOutdated_iff info).mp hc) hmv)]
    have : info.checkInput c.blake3 template input.rustdoc = false := by
      cases hh : info.checkInput c.blake3 template input.rustdoc with
      | false => rfl
      | true =>
        obtain ⟨h1, h2⟩ := (checkInput_iff c.blake3 info template input.rustdoc).mp hh
        rcases hhash with h3 | h3 <;> exact absurd (by assumption) h3
    rw [this]
    rfl
  · intro info pre lib d post h hmv h1 h2 hdeps hpre hfail
    rw [h]
    simp only
    rw [if_neg (fun hc => ((checkOutdated_iff info).mp hc) hmv)]
    rw [(checkInput_iff c.blake3 info template input.rustdoc).mpr ⟨h1, h2⟩]
    simp only [Bool.not_true, Bool.false_eq_true, if_false]
    rw [hdeps]
    rw [find?_append_none _ pre _ (List.find?_eq_none.mpr (fun e he => by simp [hpre e he]))]
    rw [List.find?_cons]
    simp [hfail]
  · intro info h hmv h1 h2 hall
    rw [h]
    simp only
    rw [if_neg (fun hc => ((checkOutdated_iff info).mp hc) hmv)]
    rw [(checkInput_iff c.blake3 info template input.rustdoc).mpr ⟨h1, h2⟩]
    simp only [Bool.not_true, Bool.false_eq_true, if_false]
    rw [List.find?_eq_none.mpr (fun e he => by simp [hall e he])]
  · cases hdec : Depinfo.DependencyInfo.decode (markerToken checkBuf idx) with
    | none => simp
    | some info =>
      simp only
      by_cases ho : info.checkOutdated = true
      · simp [ho]
      · simp only [Bool.not_eq_true] at ho
        simp only [ho, Bool.false_eq_true, if_false]
        cases hi : info.checkInput c.blake3 template input.rustdoc with
        | false => simp
        | true =>
          simp only [Bool.not_true, Bool.false_eq_true, if_false]
          cases input.dependencies.find? (fun e =>
              !info.checkDependency e.2.crateName (some e.2.req.base) e.1 true) <;> simp
  · intro e
    cases hdec : Depinfo.DependencyInfo.decode (markerToken checkBuf idx) with
    | none => simp
    | some info =>
      simp only
      by_cases ho : info.checkOutdated = true
      · simp [ho]
      · simp only [Bool.not_eq_true] at ho
        simp only [ho, Bool.false_eq_true, if_false]
        cases hi : info.checkInput c.blake3 template input.rustdoc with
        | false => simp
        | true =>
          simp only [Bool.not_true, Bool.false_eq_true, if_false]
          cases input.dependencies.find? (fun e =>
              !info.checkDependency e.2.crateName (some e.2.req.base) e.1 true) <;> simp

end Verify

/-- C10 (amended): the trailer key `emit` writes differs from the marker
`check_up2date` searches for, and on any existing document free of the
marker `check_up2date` never enters the decode path: it always decides by
the byte-for-byte comparison against the freshly rendered document. -/
theorem c10_trailer_key_amended (c : Output.Collab) (input : Input.InputFile)
    (template : String) (events : List Output.Event) (checkBuf : String)
    (hnomarker : strFindSub checkBuf Verify.searchKey = none) :
    Verify.emitTrailerKey ≠ Verify.searchKey ∧
    (Verify.checkUp2date c input template events checkBuf ≠ .ok .invalidDepInfo ∧
     Verify.checkUp2date c input template events checkBuf ≠ .ok .outdatedMarkdown ∧
     Verify.checkUp2date c input template events checkBuf ≠ .ok .inputChanged ∧
     ∀ name, Verify.checkUp2date c input template events checkBuf ≠
       .ok (.incompatibleVersion name)) ∧
    (∀ writes, Output.emit c input template events = (writes, none) →
      Verify.checkUp2date c input template events checkBuf =
        .ok (if String.join writes = checkBuf then .upToDate else .outputChanged)) := by
  have hstep : Verify.checkUp2date c input template events checkBuf =
      match Output.emit c input template events with
      | (_, some e) => .error e
      | (writes, none) =>
        .ok (if String.join writes = checkBuf then .upToDate else .outputChanged) := by
    unfold Verify.checkUp2date
    rw [hnomarker]
  refine ⟨by decide, ?_, ?_⟩
  · rw [hstep]
    cases hemit : Output.emit c input template events with
    | mk writes err =>
      cases err with
      | none =>
        by_cases heq : String.join writes = checkBuf <;> simp [heq]
      | some e => simp
  · intro writes hemit
    rw [hstep, hemit]

/-- C10 counterexample: with a template ending in a prefix of the marker
right before the tera placeholder, and a rustdoc text beginning with the
marker's tail, `emit` succeeds and produces a document that does contain
the marker, so `check_up2date` on that fresh document answers by the
decode path (invalid-info), not by the byte comparison — although neither
the template nor the rustdoc text contains the marker. -/
theorem c10_marker_forged_across_tera :
    strContainsSub inputStub.rustdoc Verify.searchKey = false ∧
    strContainsSub templateC10 Verify.searchKey = false ∧
    (Output.emit collabStub inputStub templateC10 eventsC10).2 = none ∧
    (strFindSub bufC10 Verify.searchKey).isSome = true ∧
    Verify.checkUp2date collabStub inputStub templateC10 eventsC10 bufC10 =
      .ok .invalidDepInfo := by
  decide

/-- C1 witness: a concrete buffer holding the marker and an outdated
record makes `check_up2date` answer outdated-markdown via the theorem. -/
theorem c1_check_up2date_order_witness :
    strFindSub bufC1 Verify.searchKey = some 1 ∧
    Verify.checkUp2date collabStub inputStub "T" [] bufC1 = .ok .outdatedMarkdown :=
  ⟨by decide,
   (Verify.c1_check_up2date_order collabStub inputStub "T" [] bufC1 1 (by decide)).2.1 infoC1
     (by decide) (by decide)⟩

/-- C2 witness: the amended characterization applied at the concrete
stored record of the counterexample. -/
theorem c2_dependency_check_amended_witness :
    infoC2.checkDependency "a" (some reqC2.base) "a" true =
      !(SemVer.lt (semver 2 0 0) reqC2.base) :=
  (Depinfo.c2_dependency_check_amended infoC2 "a" "a" reqC2 (semver 2 0 0) true (by decide)).2

/-- C4 witness: inserting `Vec` twice over the prelude leaves the newest
candidate in front and resolution returns its canonical path. -/
theorem c4_shadowing_front_witness :
    Input.scopeLookup
        (((Input.Scope.prelude .e2018).insert "Vec" .useK "lib::Vec").insert
          "Vec" .useK "::mycrate::Vec").scope "Vec" =
      some [(.useK, "::mycrate::Vec"), (.useK, "lib::Vec"),
            (.structK, "::std::vec::Vec")] ∧
    (((Input.Scope.prelude .e2018).insert "Vec" .useK "lib::Vec").insert
        "Vec" .useK "::mycrate::Vec").resolveFuel "mycrate" 2 "Vec" =
      some "::mycrate::Vec" := by
  have h := Input.c4_shadowing_front (Input.Scope.prelude .e2018) "mycrate" "Vec"
    .useK .useK "lib::Vec" "::mycrate::Vec" (by decide) (by decide) (by decide) (by decide)
  refine ⟨?_, ?_⟩
  · rw [h.1]; decide
  · exact h.2 0

/-- C5 witness: `std::u8::MAX` with a function kind (no page template)
yields the search-style URL under the std docs host. -/
theorem c5_std_link_amended_witness :
    (linksC5.buildLink ⟨false, ["std", "u8", "MAX"]⟩ (some .functionK) inputStub).1 =
      linksC5 ∧
    (linksC5.buildLink ⟨false, ["std", "u8", "MAX"]⟩ (some .functionK) inputStub).2 =
      "https://doc.rust-lang.org/stable/std/?search=u8::MAX" := by
  have h := c5_std_link_amended linksC5 ⟨false, ["std", "u8", "MAX"]⟩
    (some .functionK) inputStub (by decide)
  refine ⟨h.1, ?_⟩
  have h3 := h.2.2 (by decide) ["u8", "MAX"] (by decide) (by decide)
  rw [h3]
  decide

/-- C8 witness: in the plain prelude scope every stored value is absolute,
so resolution of `Vec` succeeds within fuel 2. -/
theorem c8_resolve_terminates_amended_witness :
    ((Input.Scope.prelude .e2018).resolveFuel "mycrate" 2 "Vec").isSome = true :=
  Input.c8_resolve_terminates_amended (Input.Scope.prelude .e2018) "mycrate" (by decide) "Vec"

/-- C9 witness: a rejected repository URL produces zero writes; a
successful run produces exactly one. -/
theorem c9_single_final_write_witness :
    (Output.emit collabStub inputC9repo "" []).1 = [] ∧
    ∃ s, (Output.emit collabStub inputStub "X" []).1 = [s] :=
  ⟨(c9_single_final_write collabStub inputC9repo "" []).1 (by decide),
   (c9_single_final_write collabStub inputStub "X" []).2 (by decide)⟩

/-- C10 witness: on a marker-free document the verifier decides by the
byte comparison (here: output-changed). -/
theorem c10_trailer_key_amended_witness :
    Verify.emitTrailerKey ≠ Verify.searchKey ∧
    Verify.checkUp2date collabStub inputStub "X" [] "plain" = .ok .outputChanged := by
  have h := c10_trailer_key_amended collabStub inputStub "X" [] "plain" (by decide)
  refine ⟨h.1, ?_⟩
  rw [h.2.2 ["X"] (by decide)]
  decide
